import Mathlib

/-!
Verification of the conversational data-query subsystem of
`services/ai_service.py`: the SQL validator `validate_sql`, the Genie
poll loop `_poll_genie`, the Bedrock fallback `_bedrock_text_to_sql`,
and the orchestrator `chat_with_data`.

Strings are embedded as `List Char`.  The Python `str.strip()` is modelled
over the six ASCII whitespace characters it strips (the inputs of
interest are ASCII); `str.upper()` / regex word characters are modelled
over ASCII, matching Python on every ASCII string.
-/

/-- Python strings, embedded as lists of characters. -/
abbrev Str := List Char

/-- Coerce a Lean string literal to the embedding. -/
def str (s : String) : Str := s.data

/-- The six ASCII whitespace characters stripped by Python `str.strip()`. -/
def isPySpace (c : Char) : Bool :=
  c == ' ' || c == '\t' || c == '\n' || c == '\r' || c == '\x0b' || c == '\x0c'

/-- Remove trailing characters satisfying `p` (Python `str.rstrip`). -/
def rstripWith (p : Char → Bool) (s : Str) : Str :=
  (s.reverse.dropWhile p).reverse

/-- Python `s.strip()`: remove leading and trailing whitespace. -/
def pyStrip (s : Str) : Str :=
  (rstripWith isPySpace s).dropWhile isPySpace

/-- Python `s.rstrip(";")`: remove all trailing semicolons. -/
def rstripSemi (s : Str) : Str :=
  rstripWith (fun c => c == ';') s

/-- Uppercase a string (Python `str.upper()`, ASCII). -/
def upperStr (s : Str) : Str := s.map Char.toUpper

/-- Word characters for the regex `\b` boundary: `[A-Za-z0-9_]` (ASCII). -/
def isWordChar (c : Char) : Bool := c.isAlphanum || c == '_'

/-- A word boundary holds next to this (optional) neighbouring character. -/
def boundaryOk : Option Char → Bool
  | none => true
  | some c => !isWordChar c

/-- Occurrence of `w` at the head of `s` as a whole word, where `prev` is the
character immediately before `s` in the surrounding text. -/
def wordAt (w s : Str) (prev : Option Char) : Bool :=
  boundaryOk prev && w.isPrefixOf s && boundaryOk (s.drop w.length).head?

/-- Occurrence of `w` as a whole word somewhere in `s`, whose preceding context
character is `prev`.  Models `re.search(rf"\b{…}\b", s)` being non-`None`. -/
def containsWordFrom (w : Str) : Str → Option Char → Bool
  | [], prev => wordAt w [] prev
  | c :: rest, prev => wordAt w (c :: rest) prev || containsWordFrom w rest (some c)

/-- Truth of `re.search(rf"\b{w}\b", s) is not None` for a word `w`. -/
def containsWholeWord (w s : Str) : Bool := containsWordFrom w s none

/-- First lexical token of a statement in the naive sense: skip leading
whitespace, then take the maximal run of word characters.  (Comments are
not skipped here; see `firstMeaningfulToken` for the token the parser
actually classifies.) -/
def firstToken (s : Str) : Str :=
  (s.dropWhile isPySpace).takeWhile isWordChar

/-- A statement whose leading token is literally the `SELECT` keyword
(case-insensitive).  This is a sufficient condition for the parser check
of `validate_sql` to pass — see `getTypeSelect`, which additionally skips
leading comments and resolves CTE (`WITH`) statements. -/
def parsesAsSelect (s : Str) : Bool :=
  upperStr (s.takeWhile isWordChar) == str "SELECT"

/-- Everything except `'\n'` and `'\r'`, the characters ending an SQL
line comment. -/
def notLineBreak (c : Char) : Bool := !(c == '\n' || c == '\r')

/-- Skip the body of a line comment (after the leading `--`): drop up to
and including the line break.  An unterminated comment swallows the rest
of the string. -/
def dropToNewline (s : Str) : Str := (s.dropWhile notLineBreak).drop 1

/-- Skip the body of a block comment (after the leading open marker):
drop up to and including the closing marker.  An unterminated comment
swallows the rest of the string. -/
def dropBlock : Str → Str
  | [] => []
  | c :: rest => if c == '*' && rest.head? == some '/' then rest.drop 1 else dropBlock rest

/-- Fuel-driven worker for `skipMeaningless`.  Every recursive call
strictly shrinks the string, so fuel equal to the length never runs out. -/
def skipCmAux : Nat → Str → Str
  | 0, s => s
  | fuel + 1, s =>
    match s with
    | [] => []
    | c :: rest =>
      if isPySpace c then skipCmAux fuel rest
      else if c == '-' && rest.head? == some '-' then
        skipCmAux fuel (dropToNewline (rest.drop 1))
      else if c == '/' && rest.head? == some '*' then
        skipCmAux fuel (dropBlock (rest.drop 1))
      else c :: rest

/-- Skip leading whitespace and SQL comments (`-- …` to end of line and
`/* … */` blocks), the way `token_first(skip_cm=True)` inside sqlparse
`get_type` does before classifying the first token.  Hash-style MySQL
comments are outside the modelled fragment. -/
def skipMeaningless (s : Str) : Str := skipCmAux s.length s

/-- The first token the parser classifies: the maximal word-character run
after leading whitespace and comments. -/
def firstMeaningfulToken (s : Str) : Str :=
  (skipMeaningless s).takeWhile isWordChar

/-- The statement text following the first meaningful token. -/
def afterTok (s : Str) : Str :=
  (skipMeaningless s).drop (firstMeaningfulToken s).length

/-- The DML keywords of sqlparse (`KEYWORDS_COMMON` entries with token
type `DML`), the candidates `get_type` can report for a statement body. -/
def DML_KEYWORDS : List Str :=
  [str "SELECT", str "INSERT", str "UPDATE", str "DELETE",
   str "UPSERT", str "REPLACE", str "MERGE"]

/-- Fuel-driven worker for `findBodyDML`: scan for the first word at
parenthesis depth 0 that is a DML keyword, skipping whitespace, comments
and parenthesised groups (the CTE definitions), and report it
upper-cased.  Every recursive call strictly shrinks the string. -/
def findDmlAux : Nat → Str → Nat → Option Str
  | 0, _, _ => none
  | fuel + 1, s, depth =>
    match s with
    | [] => none
    | c :: rest =>
      if c == '(' then findDmlAux fuel rest (depth + 1)
      else if c == ')' then findDmlAux fuel rest (depth - 1)
      else if c == '-' && rest.head? == some '-' then
        findDmlAux fuel (dropToNewline (rest.drop 1)) depth
      else if c == '/' && rest.head? == some '*' then
        findDmlAux fuel (dropBlock (rest.drop 1)) depth
      else if isWordChar c then
        if depth == 0 && DML_KEYWORDS.contains (upperStr ((c :: rest).takeWhile isWordChar)) then
          some (upperStr ((c :: rest).takeWhile isWordChar))
        else findDmlAux fuel (rest.dropWhile isWordChar) depth
      else findDmlAux fuel rest depth

/-- The first parenthesis-depth-0 DML keyword of a statement tail: the
body type that sqlparse `get_type` reports for a `WITH` (CTE) statement,
whose identifier groups and parenthesised definitions its scan skips.
String literals appearing before the body keyword are outside the
modelled fragment. -/
def findBodyDML (s : Str) (depth : Nat) : Option Str := findDmlAux s.length s depth

/-- Model of `sqlparse.parse(sql)[0].get_type() == "SELECT"` on the
stripped statement: after skipping leading whitespace and comments, the
first token either is the `SELECT` keyword itself, or is the `WITH`
keyword of a CTE statement whose first depth-0 DML keyword — its body
type — is `SELECT`.  Any other first token yields a non-SELECT type
(another DML/DDL keyword or `"UNKNOWN"`), which `validate_sql` rejects. -/
def getTypeSelect (s : Str) : Bool :=
  if upperStr (firstMeaningfulToken s) == str "SELECT" then true
  else if upperStr (firstMeaningfulToken s) == str "WITH" then
    findBodyDML (afterTok s) 0 == some (str "SELECT")
  else false

/-- The set `BLOCKED_SQL_KEYWORDS` of `services/ai_service.py`.  The source keeps
these in a Python `set`, whose iteration order is unspecified; the model
fixes the order of the literal.  All statements proved below about the
named keyword hold in any order (only one keyword is ever at stake). -/
def BLOCKED_SQL_KEYWORDS : List Str :=
  [str "INSERT", str "UPDATE", str "DELETE", str "DROP", str "TRUNCATE",
   str "ALTER", str "CREATE", str "EXEC", str "EXECUTE", str "GRANT", str "REVOKE"]

/-- The constant `MAX_ROW_LIMIT` of `services/ai_service.py`. -/
def MAX_ROW_LIMIT : Nat := 10000

/-- Result of a Python call: a value, or a raised exception carrying its
message. -/
inductive Res (α : Type) where
  | ok : α → Res α
  | exn : Str → Res α
deriving DecidableEq

/-- Source of `validate_sql` in `services/ai_service.py` (lines 216–232):

    sql = sql.strip().rstrip(";")
    if ";" in sql: raise ValueError("Multi-statement SQL is not allowed.")
    parsed = sqlparse.parse(sql)
    if not parsed: raise ValueError("Could not parse the generated SQL.")
    if parsed[0].get_type() != "SELECT":
        raise ValueError("Only SELECT queries are allowed.")
    upper = sql.upper()
    for kw in BLOCKED_SQL_KEYWORDS:
        if re.search(rf"\b{kw}\b", upper):
            raise ValueError(f"Blocked keyword detected: {kw}")
    if not re.search(r"\bLIMIT\b", upper):
        sql = f"{sql} LIMIT {MAX_ROW_LIMIT}"
    return sql

`sqlparse.parse` of the empty string yields no statement; on the
non-empty stripped statement the `get_type() == "SELECT"` test is
modelled by `getTypeSelect`.  The trimming of line 218 is `trimSql`. -/
def trimSql (sql0 : Str) : Str := rstripSemi (pyStrip sql0)

/-- See the doc comment of `trimSql` for the translated source. -/
def validate_sql (sql0 : Str) : Res Str :=
  if (trimSql sql0).contains ';' then Res.exn (str "Multi-statement SQL is not allowed.")
  else if (trimSql sql0).isEmpty then Res.exn (str "Could not parse the generated SQL.")
  else if !getTypeSelect (trimSql sql0) then Res.exn (str "Only SELECT queries are allowed.")
  else
    match BLOCKED_SQL_KEYWORDS.find? (fun kw => containsWholeWord kw (upperStr (trimSql sql0))) with
    | some kw => Res.exn (str "Blocked keyword detected: " ++ kw)
    | none =>
      if !containsWholeWord (str "LIMIT") (upperStr (trimSql sql0)) then
        Res.ok (trimSql sql0 ++ str " LIMIT 10000")
      else Res.ok (trimSql sql0)

/-- Query results, abstracted to their row count — the only attribute the
orchestrator inspects (`len(df)`); the sampled text fed to the insight
call is handled by the insight oracle of `Env`. -/
structure DataFrame where
  nrows : Nat
deriving DecidableEq

/-- The `ChatResponse` dataclass of `services/ai_service.py`. -/
structure ChatResponse where
  text : Str
  dataframe : Option DataFrame := none
  sql : Option Str := none
  conversationId : Option Str := none
  source : Str := str "genie"
  error : Option Str := none
deriving DecidableEq

/-- One attachment of a Genie poll reply: `att.get("type")`,
`att.get("content", "")` and `att.get("query", {}).get("query")`. -/
structure GenieAttachment where
  atype : Str
  content : Str := str ""
  query : Option Str := none

/-- The JSON body of one Genie message-status poll: `data.get("status")`,
`data.get("attachments", [])` and `data.get("error", "unknown")`. -/
structure GeniePollReply where
  status : Str
  attachments : List GenieAttachment := []
  error : Str := str "unknown"

/-- The JSON body answering `start-conversation`. -/
structure StartReply where
  conversationId : Str
  messageId : Str

/-- The external world of one `chat_with_data` call: process configuration
plus the outcome of every outbound call the request may make.  `exn`
outcomes model raised exceptions (transport errors, HTTP error statuses,
database failures). -/
structure Env where
  /-- `USE_MOCK` (`USE_MOCK_AI=true`). -/
  useMock : Bool
  /-- `GENIE_SPACE_ID`; tier 1 is configured iff non-empty. -/
  genieSpaceId : Str
  /-- Outcome of the `start-conversation` POST (`_start_genie`). -/
  startReply : Res StartReply
  /-- Outcome of the continue-conversation POST (`_continue_genie`),
  yielding the new `message_id`. -/
  continueReply : Res Str
  /-- Outcome of the `n`-th message-status GET inside `_poll_genie`. -/
  pollReply : Nat → Res GeniePollReply
  /-- `db_service._sql_query` on a given SQL string. -/
  sqlQuery : Str → Res DataFrame
  /-- `str(agent(_TEXT_TO_SQL_PROMPT.format(…)))` in `_bedrock_text_to_sql`. -/
  agentReply : Res Str
  /-- The agent call made by `_generate_insight`. -/
  insightReply : Res Str

/-- The attachment scan in the COMPLETED branch of `_poll_genie`: `text` is
overwritten by each `"text"` attachment, `sql` by each `"query"` one. -/
def scanAttachments (atts : List GenieAttachment) : Str × Option Str :=
  atts.foldl
    (fun acc att =>
      if att.atype == str "text" then (att.content, acc.2)
      else if att.atype == str "query" then (acc.1, att.query)
      else acc)
    (str "", none)

/-- The `try: df = db_service._sql_query(validate_sql(sql)) except: pass`
block of `_poll_genie`, guarded by Python truthiness of `sql` (`if sql:`
is false for `None` and for the empty string). -/
def genieMaterialize (env : Env) (sql : Option Str) : Option DataFrame :=
  match sql with
  | none => none
  | some q =>
    if q.isEmpty then none
    else
      match validate_sql q with
      | Res.exn _ => none
      | Res.ok safe =>
        match env.sqlQuery safe with
        | Res.exn _ => none
        | Res.ok df => some df

/-- The backoff update of `_poll_genie`: `wait = min(wait * 2, 5)`. -/
def genieBackoff (wait : Nat) : Nat := min (wait * 2) 5

/-- The `while elapsed < max_wait` loop of `_poll_genie` (lines 101–133).
`n` counts polls already made (indexing the oracle); `fuel` bounds the
recursion.  Since every iteration adds `wait ≥ 1` to `elapsed`, with
`fuel = maxWait` the fuel can run out only once `elapsed ≥ maxWait`, where
the exit of the loop raises the same `TimeoutError("Genie timed out.")`. -/
def pollGenieLoop (env : Env) (conversationId : Str) (maxWait : Nat) :
    Nat → Nat → Nat → Nat → Res ChatResponse
  | 0, _, _, _ => Res.exn (str "Genie timed out.")
  | fuel + 1, n, wait, elapsed =>
    if elapsed < maxWait then
      match env.pollReply n with
      | Res.exn e => Res.exn e
      | Res.ok data =>
        if data.status == str "COMPLETED" then
          let ts := scanAttachments data.attachments
          Res.ok
            { text := if ts.1.isEmpty then str "Here are your results." else ts.1
              dataframe := genieMaterialize env ts.2
              sql := ts.2
              conversationId := some conversationId
              source := str "genie"
              error := none }
        else if data.status == str "FAILED" then
          Res.exn (str "Genie FAILED: " ++ data.error)
        else if data.status == str "UNABLE_TO_ANSWER" then
          Res.exn (str "Genie could not answer this question.")
        else
          pollGenieLoop env conversationId maxWait fuel (n + 1) (genieBackoff wait) (elapsed + wait)
    else Res.exn (str "Genie timed out.")

/-- Entry `_poll_genie(conversation_id, message_id, max_wait=60)`: poll with
`wait, elapsed = 1, 0`. -/
def pollGenie (env : Env) (conversationId _messageId : Str) (maxWait : Nat := 60) :
    Res ChatResponse :=
  pollGenieLoop env conversationId maxWait maxWait 0 1 0

/-- Tier-1 `_start_genie`: submit the question, then poll the returned ids. -/
def startGenie (env : Env) (_question : Str) : Res ChatResponse :=
  match env.startReply with
  | Res.exn e => Res.exn e
  | Res.ok r => pollGenie env r.conversationId r.messageId

/-- Tier-1 `_continue_genie`: post to the existing conversation, then poll. -/
def continueGenie (env : Env) (conversationId _question : Str) : Res ChatResponse :=
  match env.continueReply with
  | Res.exn e => Res.exn e
  | Res.ok messageId => pollGenie env conversationId messageId

/-- The tier-1 attempt of `chat_with_data` (lines 61–64): continue the
conversation when an id is supplied, else start a new one. -/
def tier1Attempt (env : Env) (question : Str) (conversationId : Option Str) :
    Res ChatResponse :=
  match conversationId with
  | some cid => continueGenie env cid question
  | none => startGenie env question

/-- Python `raw_sql.split(':', 1)[-1]`: everything after the first colon, or the
whole string when there is none. -/
def splitColonTail (s : Str) : Str :=
  if s.contains ':' then (s.dropWhile (fun c => !(c == ':'))).drop 1 else s

/-- Digit grouping of the Python format `f"{n:,}"`. -/
def commaGroupRev : List Char → Nat → List Char
  | [], _ => []
  | c :: rest, k =>
    if k % 3 == 0 && !(k == 0) then ',' :: c :: commaGroupRev rest (k + 1)
    else c :: commaGroupRev rest (k + 1)

/-- Python `f"{n:,}"` for a natural number. -/
def natGrouped (n : Nat) : Str :=
  (commaGroupRev (Nat.toDigits 10 n).reverse 0).reverse

/-- Tier-2 `_bedrock_text_to_sql` (lines 170–201).  The raw agent reply and the
database outcome come from `env`; a raised `ValueError` from validation or
a database error propagates (`Res.exn`), to be caught by the orchestrator. -/
def bedrockTextToSql (env : Env) (_question _schemaContext : Str) : Res ChatResponse :=
  match env.agentReply with
  | Res.exn e => Res.exn e
  | Res.ok raw =>
    let rawSql := pyStrip raw
    if (str "UNABLE_TO_ANSWER").isPrefixOf rawSql then
      Res.ok
        { text := str "I couldn\x27t find data to answer that. " ++ pyStrip (splitColonTail rawSql)
          dataframe := none
          sql := none
          conversationId := none
          source := str "bedrock"
          error := none }
    else
      match validate_sql rawSql with
      | Res.exn e => Res.exn e
      | Res.ok safeSql =>
        match env.sqlQuery safeSql with
        | Res.exn e => Res.exn e
        | Res.ok df =>
          let fallback := str "Found " ++ natGrouped df.nrows ++ str " row(s)."
          let summary :=
            if 0 < df.nrows then
              match env.insightReply with
              | Res.ok t => t
              | Res.exn _ => fallback
            else fallback
          Res.ok
            { text := summary
              dataframe := some df
              sql := some safeSql
              conversationId := none
              source := str "bedrock"
              error := none }

/-- Tier-3 `_mock_response`: the fixed deterministic answer. -/
def mockResponse (question : Str) : ChatResponse :=
  { text := str "[MOCK] Simulated response for: \x27" ++ question ++
      str "\x27\n\n• Heat Dissipation Failure is the most common failure mode at 33% of incidents.\n• Power Failure accounts for 28% — consider reviewing power supply stability.\n• Tool Wear Failure at 13% suggests scheduled tool replacement intervals may need adjustment."
    dataframe := some { nrows := 5 }
    sql := some (str "SELECT failure_mode, COUNT(*) AS count FROM main.predictive_maintenance.cnc_machine_data GROUP BY 1 LIMIT 10")
    conversationId := some (str "mock-conv-001")
    source := str "mock"
    error := none }

/-- Lines 68–77 of `chat_with_data`: the tier-2 attempt with its
catch-all handler producing the apology response. -/
def bedrockStage (env : Env) (question schemaContext : Str) : ChatResponse :=
  match bedrockTextToSql env question schemaContext with
  | Res.ok r => r
  | Res.exn e =>
    { text := str "I was unable to answer your question. Please try rephrasing it."
      dataframe := none
      sql := none
      conversationId := none
      source := str "error"
      error := some e }

/-- Orchestrator `chat_with_data` (lines 46–77).  The result type is `Res` so that an
uncaught exception would be visible as `Res.exn`; the theorems below show
every path returns `Res.ok`. -/
def chat_with_data (env : Env) (question : Str) (conversationId : Option Str)
    (schemaContext : Str) : Res ChatResponse :=
  if env.useMock then Res.ok (mockResponse question)
  else if !env.genieSpaceId.isEmpty then
    match tier1Attempt env question conversationId with
    | Res.ok r => Res.ok r
    | Res.exn _ => Res.ok (bedrockStage env question schemaContext)
  else Res.ok (bedrockStage env question schemaContext)


/-- The last character of `a`, falling back to `prev` when `a` is empty:
the context character immediately preceding a suffix appended after `a`. -/
def lastOr : Str → Option Char → Option Char
  | [], prev => prev
  | c :: rest, _ => lastOr rest (some c)

/-- A sample environment for concrete instances: non-mock, tier 1
configured but failing at submission, polls pending forever, database
raising, and a parameterized agent reply. -/
def sampleEnv (agentReply : Res Str) : Env where
  useMock := false
  genieSpaceId := str "space"
  startReply := Res.exn (str "connection refused")
  continueReply := Res.exn (str "connection refused")
  pollReply := fun _ => Res.ok { status := str "PENDING" }
  sqlQuery := fun _ => Res.exn (str "warehouse unavailable")
  agentReply := agentReply
  insightReply := Res.exn (str "insight failed")

/-! ### String toolkit lemmas -/

theorem not_word_of_pySpace {c : Char} (h : isPySpace c = true) : isWordChar c = false := by
  unfold isPySpace at h
  have hs : c = ' ' ∨ c = '\t' ∨ c = '\n' ∨ c = '\r' ∨ c = '\x0b' ∨ c = '\x0c' := by
    simpa [Bool.or_eq_true, beq_iff_eq, or_assoc] using h
  rcases hs with rfl | rfl | rfl | rfl | rfl | rfl <;> decide

theorem rstripWith_split (p : Char → Bool) (s : Str) :
    ∃ b, s = rstripWith p s ++ b ∧ ∀ c ∈ b, p c = true := by
  refine ⟨(s.reverse.takeWhile p).reverse, ?_, ?_⟩
  · conv_lhs => rw [← s.reverse_reverse,
      ← List.takeWhile_append_dropWhile (p := p) (l := s.reverse)]
    rw [List.reverse_append]
    rfl
  · intro c hc
    rw [List.mem_reverse] at hc
    exact List.mem_takeWhile_imp hc

theorem dropWhile_eq_self_of_head {p : Char → Bool} {c : Char} {rest : Str}
    (h : p c = false) : (c :: rest).dropWhile p = c :: rest := by
  rw [List.dropWhile_cons, h]
  simp

theorem rstripWith_eq_self_of_not_mem {p : Char → Bool} {s : Str}
    (h : ∀ c ∈ s, p c = false) : rstripWith p s = s := by
  obtain ⟨b, hsplit, hb⟩ := rstripWith_split p s
  cases hb' : b with
  | nil =>
    rw [hb', List.append_nil] at hsplit
    exact hsplit.symm
  | cons c b' =>
    exfalso
    have hc : c ∈ s := by
      rw [hsplit, hb']; exact List.mem_append_right _ (List.mem_cons_self c b')
    have := hb c (by rw [hb']; exact List.mem_cons_self c b')
    rw [h c hc] at this
    exact Bool.false_ne_true this

theorem rstripWith_concat_of_last {p : Char → Bool} {y : Str} {c : Char}
    (h : p c = false) : rstripWith p (y ++ [c]) = y ++ [c] := by
  unfold rstripWith
  rw [List.reverse_append]
  simp only [List.reverse_cons, List.reverse_nil, List.nil_append, List.singleton_append]
  rw [dropWhile_eq_self_of_head h]
  simp

theorem takeWhile_append_of_empty {p : Char → Bool} {b : Str}
    (hb : b.takeWhile p = []) : ∀ a : Str, (a ++ b).takeWhile p = a.takeWhile p := by
  intro a
  induction a with
  | nil => simpa using hb
  | cons c a' ih =>
    rw [List.cons_append, List.takeWhile_cons, List.takeWhile_cons]
    cases h : p c <;> simp [ih]

theorem takeWhile_eq_nil_of_all {p : Char → Bool} {b : Str}
    (h : ∀ c ∈ b, p c = false) : b.takeWhile p = [] := by
  cases b with
  | nil => rfl
  | cons c b' =>
    rw [List.takeWhile_cons, h c (List.mem_cons_self c b')]
    simp

/-! ### Whole-word occurrence lemmas -/

theorem wordAt_none_of {w s : Str} {prev : Option Char}
    (h : wordAt w s prev = true) : wordAt w s none = true := by
  unfold wordAt at h ⊢
  rw [Bool.and_eq_true, Bool.and_eq_true] at h
  rw [Bool.and_eq_true, Bool.and_eq_true]
  exact ⟨⟨rfl, h.1.2⟩, h.2⟩

theorem containsWordFrom_none_of {w s : Str} {prev : Option Char}
    (h : containsWordFrom w s prev = true) : containsWordFrom w s none = true := by
  cases s with
  | nil =>
    unfold containsWordFrom at h ⊢
    exact wordAt_none_of h
  | cons c rest =>
    unfold containsWordFrom at h ⊢
    rcases Bool.or_eq_true_iff.mp h with h1 | h2
    · exact Bool.or_eq_true_iff.mpr (Or.inl (wordAt_none_of h1))
    · exact Bool.or_eq_true_iff.mpr (Or.inr h2)

theorem isPrefixOf_append_elim {w x b : Str}
    (hw : ∀ c ∈ w, isWordChar c = true) (hb : boundaryOk b.head? = true) :
    w.isPrefixOf (x ++ b) = true → w.isPrefixOf x = true := by
  induction w generalizing x with
  | nil => intro _; cases x <;> rfl
  | cons wc w' ih =>
    cases x with
    | nil =>
      intro h
      exfalso
      cases hbb : b with
      | nil => rw [hbb] at h; exact Bool.false_ne_true h
      | cons c b' =>
        rw [hbb] at h
        simp only [List.nil_append, List.isPrefixOf, Bool.and_eq_true, beq_iff_eq] at h
        have hcw : isWordChar c = true := h.1 ▸ hw wc (List.mem_cons_self wc w')
        rw [hbb] at hb
        simp only [List.head?_cons, boundaryOk, Bool.not_eq_true'] at hb
        rw [hb] at hcw
        exact Bool.false_ne_true hcw
    | cons xc x' =>
      intro h
      simp only [List.cons_append, List.isPrefixOf, Bool.and_eq_true] at h ⊢
      exact ⟨h.1, ih (fun c hc => hw c (List.mem_cons_of_mem wc hc)) h.2⟩

theorem wordAt_append_eq {w x b : Str} {prev : Option Char}
    (hw : ∀ c ∈ w, isWordChar c = true) (hb : boundaryOk b.head? = true) :
    wordAt w (x ++ b) prev = wordAt w x prev := by
  unfold wordAt
  cases hpre : w.isPrefixOf x with
  | false =>
    have hpre2 : w.isPrefixOf (x ++ b) = false := by
      cases h2 : w.isPrefixOf (x ++ b) with
      | false => rfl
      | true =>
        have h3 := isPrefixOf_append_elim hw hb h2
        rw [h3] at hpre
        simp at hpre
    simp [hpre, hpre2]
  | true =>
    have hlen : w.length ≤ x.length :=
      List.IsPrefix.length_le (List.isPrefixOf_iff_prefix.mp hpre)
    have hpre2 : w.isPrefixOf (x ++ b) = true := by
      rw [List.isPrefixOf_iff_prefix]
      exact (List.isPrefixOf_iff_prefix.mp hpre).trans (List.prefix_append x b)
    simp only [hpre, hpre2, List.drop_append_of_le_length hlen]
    cases hdrop : x.drop w.length with
    | nil =>
      simp only [List.nil_append, List.head?_nil]
      rw [hb]
      simp [boundaryOk]
    | cons d rest => simp

theorem containsWordFrom_all_nonword {w : Str} (hwne : w ≠ [])
    (hw : ∀ c ∈ w, isWordChar c = true) :
    ∀ (b : Str) (prev : Option Char), (∀ c ∈ b, isWordChar c = false) →
      containsWordFrom w b prev = false := by
  intro b
  induction b with
  | nil =>
    intro prev _
    unfold containsWordFrom wordAt
    cases w with
    | nil => exact absurd rfl hwne
    | cons wc w' => simp [List.isPrefixOf]
  | cons c b' ih =>
    intro prev hball
    unfold containsWordFrom
    have h1 : wordAt w (c :: b') prev = false := by
      unfold wordAt
      cases w with
      | nil => exact absurd rfl hwne
      | cons wc w' =>
        have : (wc == c) = false := by
          have hcw := hball c (List.mem_cons_self c b')
          cases heq : wc == c with
          | false => rfl
          | true =>
            rw [beq_iff_eq] at heq
            rw [← heq] at hcw
            rw [hw wc (List.mem_cons_self wc w')] at hcw
            exact absurd hcw (by simp)
        simp [List.isPrefixOf, this]
    rw [h1]
    simp only [Bool.false_or]
    exact ih (some c) (fun d hd => hball d (List.mem_cons_of_mem c hd))

theorem containsWordFrom_append_eq {w b : Str}
    (hwne : w ≠ []) (hw : ∀ c ∈ w, isWordChar c = true)
    (hb : boundaryOk b.head? = true)
    (hnb : containsWordFrom w b none = false) :
    ∀ (a : Str) (prev : Option Char),
      containsWordFrom w (a ++ b) prev = containsWordFrom w a prev := by
  intro a
  induction a with
  | nil =>
    intro prev
    simp only [List.nil_append]
    have hbprev : containsWordFrom w b prev = false := by
      cases h : containsWordFrom w b prev with
      | false => rfl
      | true => rw [containsWordFrom_none_of h] at hnb; exact hnb
    rw [hbprev]
    unfold containsWordFrom wordAt
    cases w with
    | nil => exact absurd rfl hwne
    | cons wc w' => simp [List.isPrefixOf]
  | cons c a' ih =>
    intro prev
    show containsWordFrom w (c :: (a' ++ b)) prev = containsWordFrom w (c :: a') prev
    unfold containsWordFrom
    rw [show c :: (a' ++ b) = (c :: a') ++ b from rfl,
        wordAt_append_eq hw hb, ih (some c)]

theorem word_not_pySpace {c : Char} (h : isWordChar c = true) : isPySpace c = false := by
  cases hsp : isPySpace c with
  | false => rfl
  | true => rw [not_word_of_pySpace hsp] at h; exact absurd h (by simp)

theorem toUpper_of_pySpace {c : Char} (h : isPySpace c = true) : Char.toUpper c = c := by
  unfold isPySpace at h
  have hs : c = ' ' ∨ c = '\t' ∨ c = '\n' ∨ c = '\r' ∨ c = '\x0b' ∨ c = '\x0c' := by
    simpa [Bool.or_eq_true, beq_iff_eq, or_assoc] using h
  rcases hs with rfl | rfl | rfl | rfl | rfl | rfl <;> decide

theorem boundaryOk_of_all_nonword {b : Str}
    (h : ∀ c ∈ b, isWordChar c = false) : boundaryOk b.head? = true := by
  cases b with
  | nil => rfl
  | cons c rest =>
    have hc := h c (List.mem_cons_self c rest)
    simp [boundaryOk, hc]

theorem lastOr_concat (y : Str) (c : Char) :
    ∀ prev, lastOr (y ++ [c]) prev = some c := by
  induction y with
  | nil => intro prev; rfl
  | cons d y' ih => intro prev; exact ih (some d)

theorem containsWordFrom_append_right {w b : Str} :
    ∀ (a : Str) (prev : Option Char),
      containsWordFrom w b (lastOr a prev) = true →
      containsWordFrom w (a ++ b) prev = true := by
  intro a
  induction a with
  | nil => intro prev h; exact h
  | cons c a' ih =>
    intro prev h
    show containsWordFrom w (c :: (a' ++ b)) prev = true
    unfold containsWordFrom
    exact Bool.or_eq_true_iff.mpr (Or.inr (ih (some c) h))

/-- A statement accepted by the SELECT test starts with a word character. -/
theorem parsesAsSelect_head {t : Str} (h : parsesAsSelect t = true) :
    ∃ c rest, t = c :: rest ∧ isWordChar c = true := by
  cases t with
  | nil => exact absurd h (by decide)
  | cons c rest =>
    refine ⟨c, rest, rfl, ?_⟩
    cases hc : isWordChar c with
    | true => rfl
    | false =>
      have ht : (c :: rest).takeWhile isWordChar = [] := by
        rw [List.takeWhile_cons, hc]; simp
      unfold parsesAsSelect at h
      rw [ht] at h
      exact absurd h (by decide)

/-- Stripping a string whose head is not whitespace only removes
trailing whitespace, and keeps the head. -/
theorem pyStrip_of_head_not_space {c : Char} {rest : Str} (hc : isPySpace c = false) :
    pyStrip (c :: rest) = rstripWith isPySpace (c :: rest) ∧
    ∃ y, rstripWith isPySpace (c :: rest) = c :: y := by
  obtain ⟨b, hsplit, hb⟩ := rstripWith_split isPySpace (c :: rest)
  cases hr : rstripWith isPySpace (c :: rest) with
  | nil =>
    exfalso
    rw [hr, List.nil_append] at hsplit
    have hcsp : isPySpace c = true := hb c (hsplit ▸ List.mem_cons_self c rest)
    rw [hc] at hcsp
    exact absurd hcsp (by simp)
  | cons d y =>
    have hd : d = c := by
      rw [hr] at hsplit
      exact (List.cons.injEq _ _ _ _ ▸ hsplit).1.symm
    subst hd
    constructor
    · unfold pyStrip
      rw [hr, dropWhile_eq_self_of_head hc]
    · exact ⟨y, rfl⟩

/-- Every blocked keyword is a non-empty all-word-character string. -/
theorem blocked_keywords_wf :
    ∀ kw ∈ BLOCKED_SQL_KEYWORDS, kw ≠ [] ∧ ∀ c ∈ kw, isWordChar c = true := by
  decide

theorem limit_word_wf : str "LIMIT" ≠ [] ∧ ∀ c ∈ str "LIMIT", isWordChar c = true := by
  decide

/-! ### Validator inversion -/

/-- Inversion of a successful validation: the trimmed candidate passed
every guard, and the output is the trimmed candidate, extended by one
default cap exactly when it lacked a limit clause. -/
theorem validate_sql_ok_inv {s v : Str} (h : validate_sql s = Res.ok v) :
    (trimSql s).contains ';' = false ∧
    (trimSql s).isEmpty = false ∧
    getTypeSelect (trimSql s) = true ∧
    (∀ kw ∈ BLOCKED_SQL_KEYWORDS,
      containsWholeWord kw (upperStr (trimSql s)) = false) ∧
    ((containsWholeWord (str "LIMIT") (upperStr (trimSql s)) = false ∧
        v = trimSql s ++ str " LIMIT 10000") ∨
     (containsWholeWord (str "LIMIT") (upperStr (trimSql s)) = true ∧
        v = trimSql s)) := by
  unfold validate_sql at h
  split at h
  · simp at h
  · split at h
    · simp at h
    · split at h
      · simp at h
      · rename_i h1 h2 h3
        rw [Bool.not_eq_true] at h1 h2 h3
        rw [Bool.not_eq_false'] at h3
        split at h
        · simp at h
        · rename_i hfind
          refine ⟨h1, h2, h3, ?_, ?_⟩
          · intro kw hkw
            have := List.find?_eq_none.mp hfind kw hkw
            simpa using this
          · split at h
            · rename_i hlim
              rw [Bool.not_eq_true'] at hlim
              left
              refine ⟨hlim, ?_⟩
              have hv := h
              rw [Res.ok.injEq] at hv
              exact hv.symm
            · rename_i hlim
              rw [Bool.not_eq_true, Bool.not_eq_false'] at hlim
              right
              refine ⟨hlim, ?_⟩
              have hv := h
              rw [Res.ok.injEq] at hv
              exact hv.symm

theorem not_mem_of_contains_false {l : Str} {a : Char}
    (h : l.contains a = false) : a ∉ l := by
  simp at h; exact h

theorem contains_false_of_not_mem {l : Str} {a : Char}
    (h : a ∉ l) : l.contains a = false := by
  simp [h]

theorem rstripSemi_eq_self_of_not_mem {l : Str} (h : ';' ∉ l) :
    rstripSemi l = l := by
  apply rstripWith_eq_self_of_not_mem
  intro c hc
  rw [beq_eq_false_iff_ne]
  exact fun e => h (e ▸ hc)

/-- Forward evaluation of `validate_sql` once the three rejection guards
are known to pass. -/
theorem validate_sql_eval {s : Str}
    (h1 : (trimSql s).contains ';' = false)
    (h2 : (trimSql s).isEmpty = false)
    (h3 : getTypeSelect (trimSql s) = true) :
    validate_sql s =
      match BLOCKED_SQL_KEYWORDS.find?
          (fun kw => containsWholeWord kw (upperStr (trimSql s))) with
      | some kw => Res.exn (str "Blocked keyword detected: " ++ kw)
      | none =>
        if !containsWholeWord (str "LIMIT") (upperStr (trimSql s)) then
          Res.ok (trimSql s ++ str " LIMIT 10000")
        else Res.ok (trimSql s) := by
  unfold validate_sql
  rw [if_neg (by rw [h1]; simp), if_neg (by rw [h2]; simp),
      if_neg (by rw [h3]; simp)]

/-- The word-character token inspected by the parse check on the trimmed
statement is the first token of the raw candidate. -/
theorem takeWhile_trimSql (s : Str) :
    (trimSql s).takeWhile isWordChar = firstToken s := by
  unfold trimSql firstToken
  have step1 : (rstripSemi (pyStrip s)).takeWhile isWordChar
      = (pyStrip s).takeWhile isWordChar := by
    obtain ⟨b, hsplit, hb⟩ := rstripWith_split (fun c => c == ';') (pyStrip s)
    have hnw : ∀ c ∈ b, isWordChar c = false := by
      intro c hc
      have : c = ';' := by
        have := hb c hc
        rwa [beq_iff_eq] at this
      subst this; decide
    conv_rhs => rw [hsplit]
    rw [takeWhile_append_of_empty (takeWhile_eq_nil_of_all hnw)]
    rfl
  rw [step1]
  unfold pyStrip
  obtain ⟨b2, hsplit2, hb2⟩ := rstripWith_split isPySpace s
  have hnw2 : ∀ c ∈ b2, isWordChar c = false :=
    fun c hc => not_word_of_pySpace (hb2 c hc)
  conv_rhs => rw [hsplit2]
  rw [List.dropWhile_append]
  cases hda : (List.dropWhile isPySpace (rstripWith isPySpace s)).isEmpty with
  | true =>
    simp only [if_true]
    rw [List.isEmpty_iff] at hda
    rw [hda]
    have hdb : List.dropWhile isPySpace b2 = [] :=
      List.dropWhile_eq_nil_iff.mpr hb2
    rw [hdb]
  | false =>
    simp only [Bool.false_eq_true, if_false]
    rw [takeWhile_append_of_empty (takeWhile_eq_nil_of_all hnw2)]

theorem blocked_not_in_cap :
    ∀ kw ∈ BLOCKED_SQL_KEYWORDS,
      containsWordFrom kw (str " LIMIT 10000") none = false := by
  decide

/-! ### Parser-model transfer lemmas -/

/-- A whitespace character is none of the characters the comment scanner
of the parser model inspects. -/
theorem pySpace_char_facts {c : Char} (h : isPySpace c = true) :
    isWordChar c = false ∧ (c == '-') = false ∧ (c == '*') = false ∧
    (c == '/') = false ∧ (c == '(') = false ∧ (c == ')') = false := by
  unfold isPySpace at h
  have hs : c = ' ' ∨ c = '\t' ∨ c = '\n' ∨ c = '\r' ∨ c = '\x0b' ∨ c = '\x0c' := by
    simpa [Bool.or_eq_true, beq_iff_eq, or_assoc] using h
  rcases hs with rfl | rfl | rfl | rfl | rfl | rfl <;> decide

/-- A word character differs from any non-word character. -/
theorem ne_char_of_word {c d : Char} (h : isWordChar c = true)
    (hd : isWordChar d = false) : (c == d) = false := by
  cases he : c == d with
  | false => rfl
  | true =>
    rw [beq_iff_eq] at he
    subst he
    rw [h] at hd
    exact absurd hd (by simp)

/-- The head of a list is one of its members. -/
theorem mem_of_head? {l : Str} {d : Char} (h : l.head? = some d) : d ∈ l := by
  cases l with
  | nil => exact Option.noConfusion h
  | cons a l' =>
    rw [List.head?_cons, Option.some.injEq] at h
    subst h
    exact List.mem_cons_self a l'

/-- If every head the list could have fails the comparison, the boolean
head comparison is false. -/
theorem beq_head_false {t : Str} {m : Char}
    (ht : ∀ d, t.head? = some d → (d == m) = false) :
    (t.head? == some m) = false := by
  cases t with
  | nil => rfl
  | cons d t' => exact ht d rfl

theorem dropWhile_length_le (p : Char → Bool) (s : Str) :
    (s.dropWhile p).length ≤ s.length := by
  induction s with
  | nil => exact le_rfl
  | cons c rest ih =>
    rw [List.dropWhile_cons]
    split
    · exact le_trans ih (by rw [List.length_cons]; omega)
    · exact le_rfl

theorem takeWhile_length_le (p : Char → Bool) (s : Str) :
    (s.takeWhile p).length ≤ s.length := by
  conv_rhs => rw [← List.takeWhile_append_dropWhile (p := p) (l := s)]
  rw [List.length_append]
  omega

theorem dropWhile_subset (p : Char → Bool) (s : Str) :
    ∀ c ∈ s.dropWhile p, c ∈ s := by
  induction s with
  | nil => intro c hc; exact hc
  | cons a rest ih =>
    intro c hc
    rw [List.dropWhile_cons] at hc
    split at hc
    · exact List.mem_cons_of_mem a (ih c hc)
    · exact hc

theorem dropToNewline_length_le (s : Str) : (dropToNewline s).length ≤ s.length := by
  unfold dropToNewline
  have h1 : ((s.dropWhile notLineBreak).drop 1).length
      ≤ (s.dropWhile notLineBreak).length := by
    rw [List.length_drop]; omega
  have h2 := dropWhile_length_le notLineBreak s
  omega

/-- Unfolding equation of `dropBlock` at a cons cell. -/
theorem dropBlock_cons (a : Char) (rest : Str) :
    dropBlock (a :: rest)
      = if a == '*' && rest.head? == some '/' then rest.drop 1
        else dropBlock rest := rfl

theorem dropBlock_length_le (s : Str) : (dropBlock s).length ≤ s.length := by
  induction s with
  | nil => exact le_rfl
  | cons c rest ih =>
    rw [dropBlock_cons]
    split
    · rw [List.length_drop, List.length_cons]; omega
    · exact le_trans ih (by rw [List.length_cons]; omega)

/-- The fuel of `skipCmAux` is irrelevant once it covers the length. -/
theorem skipCmAux_irrel : ∀ (f1 f2 : Nat) (s : Str), s.length ≤ f1 → s.length ≤ f2 →
    skipCmAux f1 s = skipCmAux f2 s := by
  intro f1
  induction f1 with
  | zero =>
    intro f2 s h1 _
    have hs : s = [] := List.length_eq_zero.mp (Nat.le_zero.mp h1)
    subst hs
    cases f2 <;> rfl
  | succ f1 ih =>
    intro f2 s h1 h2
    cases s with
    | nil => cases f2 <;> rfl
    | cons c rest =>
      cases f2 with
      | zero =>
        exfalso
        rw [List.length_cons] at h2
        omega
      | succ f2 =>
        rw [List.length_cons] at h1 h2
        simp only [skipCmAux]
        split
        · exact ih f2 rest (by omega) (by omega)
        · split
          · apply ih
            · have ha := dropToNewline_length_le (rest.drop 1)
              have hb : (rest.drop 1).length ≤ rest.length := by
                rw [List.length_drop]; omega
              omega
            · have ha := dropToNewline_length_le (rest.drop 1)
              have hb : (rest.drop 1).length ≤ rest.length := by
                rw [List.length_drop]; omega
              omega
          · split
            · apply ih
              · have ha := dropBlock_length_le (rest.drop 1)
                have hb : (rest.drop 1).length ≤ rest.length := by
                  rw [List.length_drop]; omega
                omega
              · have ha := dropBlock_length_le (rest.drop 1)
                have hb : (rest.drop 1).length ≤ rest.length := by
                  rw [List.length_drop]; omega
                omega
            · rfl

/-- Step equation of `skipMeaningless` at a cons cell. -/
theorem skipMeaningless_cons (c : Char) (rest : Str) :
    skipMeaningless (c :: rest) =
      (if isPySpace c then skipMeaningless rest
       else if c == '-' && rest.head? == some '-' then
         skipMeaningless (dropToNewline (rest.drop 1))
       else if c == '/' && rest.head? == some '*' then
         skipMeaningless (dropBlock (rest.drop 1))
       else c :: rest) := by
  show skipCmAux (c :: rest).length (c :: rest) = _
  rw [List.length_cons]
  simp only [skipCmAux, skipMeaningless]
  split
  · rfl
  · split
    · apply skipCmAux_irrel
      · have ha := dropToNewline_length_le (rest.drop 1)
        have hb : (rest.drop 1).length ≤ rest.length := by
          rw [List.length_drop]; omega
        omega
      · exact le_rfl
    · split
      · apply skipCmAux_irrel
        · have ha := dropBlock_length_le (rest.drop 1)
          have hb : (rest.drop 1).length ≤ rest.length := by
            rw [List.length_drop]; omega
          omega
        · exact le_rfl
      · rfl

/-- An all-whitespace statement is skipped entirely. -/
theorem skipMeaningless_all_ws : ∀ (z : Str), (∀ d ∈ z, isPySpace d = true) →
    skipMeaningless z = [] := by
  intro z
  induction z with
  | nil => intro _; rfl
  | cons c rest ih =>
    intro h
    rw [skipMeaningless_cons, if_pos (h c (List.mem_cons_self c rest))]
    exact ih (fun d hd => h d (List.mem_cons_of_mem c hd))

/-- Leading whitespace does not change the comment-skip result. -/
theorem skipMeaningless_ws_append : ∀ (w : Str), (∀ d ∈ w, isPySpace d = true) →
    ∀ x : Str, skipMeaningless (w ++ x) = skipMeaningless x := by
  intro w
  induction w with
  | nil => intro _ x; rfl
  | cons c w' ih =>
    intro hw x
    rw [List.cons_append, skipMeaningless_cons,
        if_pos (hw c (List.mem_cons_self c w'))]
    exact ih (fun d hd => hw d (List.mem_cons_of_mem c hd)) x
/-- A line-comment body either ends inside `u` — appending `t` then
shifts the remainder — or swallows all of `u`, leaving a remainder that
lies within `t`. -/
theorem dropToNewline_append_cases (u t : Str) :
    dropToNewline (u ++ t) = dropToNewline u ++ t ∨
    (dropToNewline u = [] ∧ ∀ c ∈ dropToNewline (u ++ t), c ∈ t) := by
  cases hu : u.dropWhile notLineBreak with
  | nil =>
    right
    constructor
    · unfold dropToNewline
      rw [hu]
      rfl
    · intro c hc
      unfold dropToNewline at hc
      rw [List.dropWhile_append, hu] at hc
      simp only [List.isEmpty_nil, if_true] at hc
      exact dropWhile_subset _ t c (List.drop_subset _ _ hc)
  | cons d rest =>
    left
    unfold dropToNewline
    rw [List.dropWhile_append, hu]
    simp

theorem dropBlock_subset : ∀ (s : Str) (c : Char), c ∈ dropBlock s → c ∈ s := by
  intro s
  induction s with
  | nil => intro c hc; exact hc
  | cons a rest ih =>
    intro c hc
    rw [dropBlock_cons] at hc
    split at hc
    · exact List.mem_cons_of_mem a (List.drop_subset _ _ hc)
    · exact List.mem_cons_of_mem a (ih c hc)

/-- A block-comment body either closes inside `u` — appending `t` then
shifts the remainder — or swallows all of `u`, leaving a remainder that
lies within `t`. -/
theorem dropBlock_append_cases : ∀ u t : Str,
    dropBlock (u ++ t) = dropBlock u ++ t ∨
    (dropBlock u = [] ∧ ∀ c ∈ dropBlock (u ++ t), c ∈ t) := by
  intro u
  induction u with
  | nil =>
    intro t
    right
    exact ⟨rfl, fun c hc => dropBlock_subset t c hc⟩
  | cons a u' ih =>
    intro t
    cases u' with
    | nil =>
      right
      refine ⟨by rw [dropBlock_cons]; simp [dropBlock], ?_⟩
      intro c hc
      rw [List.cons_append, List.nil_append, dropBlock_cons] at hc
      split at hc
      · exact List.drop_subset _ _ hc
      · exact dropBlock_subset t c hc
    | cons e u'' =>
      have hcondeq : (a == '*' && ((e :: u'') ++ t).head? == some '/')
          = (a == '*' && (e :: u'').head? == some '/') := by
        rw [List.cons_append, List.head?_cons, List.head?_cons]
      by_cases hcond : (a == '*' && (e :: u'').head? == some '/') = true
      · left
        rw [List.cons_append, dropBlock_cons, hcondeq, if_pos hcond,
            dropBlock_cons, if_pos hcond]
        simp
      · rcases ih t with hl | ⟨hnil, hsub⟩
        · left
          rw [List.cons_append, dropBlock_cons, hcondeq, if_neg hcond,
              dropBlock_cons, if_neg hcond]
          exact hl
        · right
          refine ⟨?_, ?_⟩
          · rw [dropBlock_cons, if_neg hcond]
            exact hnil
          · intro c hc
            rw [List.cons_append, dropBlock_cons, hcondeq, if_neg hcond] at hc
            exact hsub c hc

/-- Appending a suffix that does not begin like a comment tail to a
statement whose comment-skip result is non-empty shifts that result. -/
theorem skipMeaningless_append_of_ne_nil
    {t : Str} (ht : ∀ d, t.head? = some d → (d == '-') = false ∧ (d == '*') = false) :
    ∀ (n : Nat) (x : Str), x.length ≤ n → skipMeaningless x ≠ [] →
      skipMeaningless (x ++ t) = skipMeaningless x ++ t := by
  intro n
  induction n with
  | zero =>
    intro x hx hne
    have hxe : x = [] := List.length_eq_zero.mp (Nat.le_zero.mp hx)
    subst hxe
    exact absurd rfl hne
  | succ n ih =>
    intro x hx hne
    cases x with
    | nil => exact absurd rfl hne
    | cons c x' =>
      rw [List.length_cons] at hx
      rw [skipMeaningless_cons] at hne
      rw [List.cons_append, skipMeaningless_cons, skipMeaningless_cons]
      by_cases hsp : isPySpace c = true
      · rw [if_pos hsp] at hne
        rw [if_pos hsp, if_pos hsp]
        exact ih x' (by omega) hne
      · rw [if_neg hsp] at hne
        rw [if_neg hsp, if_neg hsp]
        cases x' with
        | nil =>
          have hbl1 : (t.head? == some '-') = false :=
            beq_head_false (fun d hd => (ht d hd).1)
          have hbl2 : (t.head? == some '*') = false :=
            beq_head_false (fun d hd => (ht d hd).2)
          have hx1 : ((([] : Str)).head? == some '-') = false := rfl
          have hx2 : ((([] : Str)).head? == some '*') = false := rfl
          rw [List.nil_append]
          rw [if_neg (by rw [hbl1]; simp), if_neg (by rw [hbl2]; simp),
              if_neg (by simp [hx1]), if_neg (by simp [hx2])]
          rfl
        | cons e x'' =>
          rw [List.length_cons] at hx
          have hhead : ((e :: x'') ++ t).head? = (e :: x'').head? := by
            rw [List.cons_append, List.head?_cons, List.head?_cons]
          have hdrop : ((e :: x'') ++ t).drop 1 = x'' ++ t := by
            rw [List.cons_append]
            rfl
          have hdrop2 : (e :: x'').drop 1 = x'' := rfl
          rw [hhead, hdrop, hdrop2]
          rw [hdrop2] at hne
          by_cases hline : (c == '-' && (e :: x'').head? == some '-') = true
          · rw [if_pos hline] at hne
            rw [if_pos hline, if_pos hline]
            rcases dropToNewline_append_cases x'' t with hl | ⟨hnil, hsub⟩
            · rw [hl]
              exact ih (dropToNewline x'')
                (by have := dropToNewline_length_le x''; omega) hne
            · rw [hnil] at hne
              exact absurd rfl hne
          · rw [if_neg hline] at hne
            rw [if_neg hline, if_neg hline]
            by_cases hblock : (c == '/' && (e :: x'').head? == some '*') = true
            · rw [if_pos hblock] at hne
              rw [if_pos hblock, if_pos hblock]
              rcases dropBlock_append_cases x'' t with hl | ⟨hnil, hsub⟩
              · rw [hl]
                exact ih (dropBlock x'')
                  (by have := dropBlock_length_le x''; omega) hne
              · rw [hnil] at hne
                exact absurd rfl hne
            · rw [if_neg hblock] at hne
              rw [if_neg hblock, if_neg hblock]
              rfl

/-- Appending an all-whitespace suffix to a statement that is all
whitespace and comments keeps the skip result empty. -/
theorem skipMeaningless_append_all_ws
    {t : Str} (htws : ∀ d ∈ t, isPySpace d = true) :
    ∀ (n : Nat) (x : Str), x.length ≤ n → skipMeaningless x = [] →
      skipMeaningless (x ++ t) = [] := by
  intro n
  induction n with
  | zero =>
    intro x hx _
    have hxe : x = [] := List.length_eq_zero.mp (Nat.le_zero.mp hx)
    subst hxe
    rw [List.nil_append]
    exact skipMeaningless_all_ws t htws
  | succ n ih =>
    intro x hx hE
    cases x with
    | nil =>
      rw [List.nil_append]
      exact skipMeaningless_all_ws t htws
    | cons c x' =>
      rw [List.length_cons] at hx
      rw [skipMeaningless_cons] at hE
      rw [List.cons_append, skipMeaningless_cons]
      by_cases hsp : isPySpace c = true
      · rw [if_pos hsp] at hE
        rw [if_pos hsp]
        exact ih x' (by omega) hE
      · rw [if_neg hsp] at hE
        rw [if_neg hsp]
        cases x' with
        | nil =>
          exfalso
          have hx1 : ((([] : Str)).head? == some '-') = false := rfl
          have hx2 : ((([] : Str)).head? == some '*') = false := rfl
          rw [if_neg (by simp [hx1]), if_neg (by simp [hx2])] at hE
          exact List.cons_ne_nil c [] hE
        | cons e x'' =>
          rw [List.length_cons] at hx
          have hhead : ((e :: x'') ++ t).head? = (e :: x'').head? := by
            rw [List.cons_append, List.head?_cons, List.head?_cons]
          have hdrop : ((e :: x'') ++ t).drop 1 = x'' ++ t := by
            rw [List.cons_append]
            rfl
          have hdrop2 : (e :: x'').drop 1 = x'' := rfl
          rw [hhead, hdrop]
          rw [hdrop2] at hE
          by_cases hline : (c == '-' && (e :: x'').head? == some '-') = true
          · rw [if_pos hline] at hE
            rw [if_pos hline]
            rcases dropToNewline_append_cases x'' t with hl | ⟨hnil, hsub⟩
            · rw [hl]
              exact ih (dropToNewline x'')
                (by have := dropToNewline_length_le x''; omega) hE
            · exact skipMeaningless_all_ws _ (fun d hd => htws d (hsub d hd))
          · rw [if_neg hline] at hE
            rw [if_neg hline]
            by_cases hblock : (c == '/' && (e :: x'').head? == some '*') = true
            · rw [if_pos hblock] at hE
              rw [if_pos hblock]
              rcases dropBlock_append_cases x'' t with hl | ⟨hnil, hsub⟩
              · rw [hl]
                exact ih (dropBlock x'')
                  (by have := dropBlock_length_le x''; omega) hE
              · exact skipMeaningless_all_ws _ (fun d hd => htws d (hsub d hd))
            · rw [if_neg hblock] at hE
              exact absurd hE (List.cons_ne_nil c (e :: x''))
/-- The fuel of `findDmlAux` is irrelevant once it covers the length. -/
theorem findDmlAux_irrel : ∀ (f1 f2 : Nat) (s : Str) (depth : Nat),
    s.length ≤ f1 → s.length ≤ f2 →
    findDmlAux f1 s depth = findDmlAux f2 s depth := by
  intro f1
  induction f1 with
  | zero =>
    intro f2 s depth h1 _
    have hs : s = [] := List.length_eq_zero.mp (Nat.le_zero.mp h1)
    subst hs
    cases f2 <;> rfl
  | succ f1 ih =>
    intro f2 s depth h1 h2
    cases s with
    | nil => cases f2 <;> rfl
    | cons c rest =>
      cases f2 with
      | zero =>
        exfalso
        rw [List.length_cons] at h2
        omega
      | succ f2 =>
        rw [List.length_cons] at h1 h2
        simp only [findDmlAux]
        split
        · exact ih f2 rest (depth + 1) (by omega) (by omega)
        · split
          · exact ih f2 rest (depth - 1) (by omega) (by omega)
          · split
            · apply ih
              · have ha := dropToNewline_length_le (rest.drop 1)
                have hb : (rest.drop 1).length ≤ rest.length := by
                  rw [List.length_drop]; omega
                omega
              · have ha := dropToNewline_length_le (rest.drop 1)
                have hb : (rest.drop 1).length ≤ rest.length := by
                  rw [List.length_drop]; omega
                omega
            · split
              · apply ih
                · have ha := dropBlock_length_le (rest.drop 1)
                  have hb : (rest.drop 1).length ≤ rest.length := by
                    rw [List.length_drop]; omega
                  omega
                · have ha := dropBlock_length_le (rest.drop 1)
                  have hb : (rest.drop 1).length ≤ rest.length := by
                    rw [List.length_drop]; omega
                  omega
              · split
                · split
                  · rfl
                  · apply ih
                    · have := dropWhile_length_le isWordChar rest
                      omega
                    · have := dropWhile_length_le isWordChar rest
                      omega
                · exact ih f2 rest depth (by omega) (by omega)

/-- Step equation of `findBodyDML` at a cons cell. -/
theorem findBodyDML_cons (c : Char) (rest : Str) (depth : Nat) :
    findBodyDML (c :: rest) depth =
      (if c == '(' then findBodyDML rest (depth + 1)
       else if c == ')' then findBodyDML rest (depth - 1)
       else if c == '-' && rest.head? == some '-' then
         findBodyDML (dropToNewline (rest.drop 1)) depth
       else if c == '/' && rest.head? == some '*' then
         findBodyDML (dropBlock (rest.drop 1)) depth
       else if isWordChar c then
         if depth == 0 && DML_KEYWORDS.contains (upperStr ((c :: rest).takeWhile isWordChar)) then
           some (upperStr ((c :: rest).takeWhile isWordChar))
         else findBodyDML (rest.dropWhile isWordChar) depth
       else findBodyDML rest depth) := by
  show findDmlAux (c :: rest).length (c :: rest) depth = _
  rw [List.length_cons]
  simp only [findDmlAux, findBodyDML]
  split
  · rfl
  · split
    · rfl
    · split
      · apply findDmlAux_irrel
        · have ha := dropToNewline_length_le (rest.drop 1)
          have hb : (rest.drop 1).length ≤ rest.length := by
            rw [List.length_drop]; omega
          omega
        · exact le_rfl
      · split
        · apply findDmlAux_irrel
          · have ha := dropBlock_length_le (rest.drop 1)
            have hb : (rest.drop 1).length ≤ rest.length := by
              rw [List.length_drop]; omega
            omega
          · exact le_rfl
        · split
          · split
            · rfl
            · apply findDmlAux_irrel
              · exact le_trans (dropWhile_length_le isWordChar rest) (by omega)
              · exact le_rfl
          · rfl

/-- An all-whitespace tail holds no DML keyword. -/
theorem findBodyDML_all_ws : ∀ (z : Str), (∀ d ∈ z, isPySpace d = true) →
    ∀ depth, findBodyDML z depth = none := by
  intro z
  induction z with
  | nil => intro _ _; rfl
  | cons c rest ih =>
    intro h depth
    have hc := h c (List.mem_cons_self c rest)
    obtain ⟨hw, hdash, hstar, hslash, hop, hcl⟩ := pySpace_char_facts hc
    rw [findBodyDML_cons,
        if_neg (by rw [hop]; simp), if_neg (by rw [hcl]; simp),
        if_neg (by rw [hdash]; simp), if_neg (by rw [hslash]; simp),
        if_neg (by rw [hw]; simp)]
    exact ih (fun d hd => h d (List.mem_cons_of_mem c hd)) depth

/-- A DML keyword found before the end of a statement is still found, at
the same value, after appending a suffix whose head is neither a word
character nor a comment-tail marker. -/
theorem findBodyDML_append_of_some
    {t : Str}
    (ht : ∀ d, t.head? = some d →
      isWordChar d = false ∧ (d == '-') = false ∧ (d == '*') = false) :
    ∀ (n : Nat) (x : Str) (depth : Nat) (w : Str), x.length ≤ n →
      findBodyDML x depth = some w → findBodyDML (x ++ t) depth = some w := by
  intro n
  induction n with
  | zero =>
    intro x depth w hx hfind
    have hxe : x = [] := List.length_eq_zero.mp (Nat.le_zero.mp hx)
    subst hxe
    exact Option.noConfusion hfind
  | succ n ih =>
    intro x depth w hx hfind
    cases x with
    | nil => exact Option.noConfusion hfind
    | cons c x' =>
      rw [List.length_cons] at hx
      rw [findBodyDML_cons] at hfind
      rw [List.cons_append, findBodyDML_cons]
      by_cases hpo : (c == '(') = true
      · rw [if_pos hpo] at hfind ⊢
        exact ih x' (depth + 1) w (by omega) hfind
      · rw [if_neg hpo] at hfind ⊢
        by_cases hpc : (c == ')') = true
        · rw [if_pos hpc] at hfind ⊢
          exact ih x' (depth - 1) w (by omega) hfind
        · rw [if_neg hpc] at hfind ⊢
          have htt : t.takeWhile isWordChar = [] := by
            cases t with
            | nil => rfl
            | cons d t' =>
              rw [List.takeWhile_cons, (ht d rfl).1]
              simp
          cases x' with
          | nil =>
            have hx1 : ((([] : Str)).head? == some '-') = false := rfl
            have hx2 : ((([] : Str)).head? == some '*') = false := rfl
            rw [if_neg (by simp [hx1]), if_neg (by simp [hx2])] at hfind
            rw [List.nil_append]
            have hbl1 : (t.head? == some '-') = false :=
              beq_head_false (fun d hd => (ht d hd).2.1)
            have hbl2 : (t.head? == some '*') = false :=
              beq_head_false (fun d hd => (ht d hd).2.2)
            rw [if_neg (by rw [hbl1]; simp), if_neg (by rw [hbl2]; simp)]
            by_cases hwc : isWordChar c = true
            · rw [if_pos hwc] at hfind
              rw [if_pos hwc]
              have hta : (c :: t).takeWhile isWordChar
                  = (c :: ([] : Str)).takeWhile isWordChar := by
                show ((c :: ([] : Str)) ++ t).takeWhile isWordChar = _
                rw [takeWhile_append_of_empty htt]
              rw [hta]
              by_cases hdml : (depth == 0 && DML_KEYWORDS.contains
                  (upperStr ((c :: ([] : Str)).takeWhile isWordChar))) = true
              · rw [if_pos hdml] at hfind
                rw [if_pos hdml]
                exact hfind
              · rw [if_neg hdml] at hfind
                exact Option.noConfusion hfind
            · rw [if_neg hwc] at hfind
              exact Option.noConfusion hfind
          | cons e x'' =>
            rw [List.length_cons] at hx
            have hhead : ((e :: x'') ++ t).head? = (e :: x'').head? := by
              rw [List.cons_append, List.head?_cons, List.head?_cons]
            have hdrop : ((e :: x'') ++ t).drop 1 = x'' ++ t := by
              rw [List.cons_append]
              rfl
            have hdrop2 : (e :: x'').drop 1 = x'' := rfl
            rw [hhead, hdrop]
            rw [hdrop2] at hfind
            by_cases hline : (c == '-' && (e :: x'').head? == some '-') = true
            · rw [if_pos hline] at hfind
              rw [if_pos hline]
              rcases dropToNewline_append_cases x'' t with hl | ⟨hnil, hsub⟩
              · rw [hl]
                exact ih (dropToNewline x'') depth w
                  (by have := dropToNewline_length_le x''; omega) hfind
              · rw [hnil] at hfind
                exact Option.noConfusion hfind
            · rw [if_neg hline] at hfind
              rw [if_neg hline]
              by_cases hblock : (c == '/' && (e :: x'').head? == some '*') = true
              · rw [if_pos hblock] at hfind
                rw [if_pos hblock]
                rcases dropBlock_append_cases x'' t with hl | ⟨hnil, hsub⟩
                · rw [hl]
                  exact ih (dropBlock x'') depth w
                    (by have := dropBlock_length_le x''; omega) hfind
                · rw [hnil] at hfind
                  exact Option.noConfusion hfind
              · rw [if_neg hblock] at hfind
                rw [if_neg hblock]
                by_cases hwc : isWordChar c = true
                · rw [if_pos hwc] at hfind
                  rw [if_pos hwc]
                  have hta : (c :: ((e :: x'') ++ t)).takeWhile isWordChar
                      = (c :: (e :: x'')).takeWhile isWordChar := by
                    show ((c :: (e :: x'')) ++ t).takeWhile isWordChar = _
                    rw [takeWhile_append_of_empty htt]
                  rw [hta]
                  by_cases hdml : (depth == 0 && DML_KEYWORDS.contains
                      (upperStr ((c :: (e :: x'')).takeWhile isWordChar))) = true
                  · rw [if_pos hdml] at hfind
                    rw [if_pos hdml]
                    exact hfind
                  · rw [if_neg hdml] at hfind
                    rw [if_neg hdml]
                    rw [List.dropWhile_append]
                    cases hdw : ((e :: x'').dropWhile isWordChar).isEmpty with
                    | true =>
                      rw [List.isEmpty_iff] at hdw
                      rw [hdw] at hfind
                      exact Option.noConfusion hfind
                    | false =>
                      rw [if_neg (by simp)]
                      exact ih ((e :: x'').dropWhile isWordChar) depth w
                        (by
                          have := dropWhile_length_le isWordChar (e :: x'')
                          rw [List.length_cons] at this
                          omega) hfind
                · rw [if_neg hwc] at hfind
                  rw [if_neg hwc]
                  exact ih (e :: x'') depth w (by rw [List.length_cons]; omega) hfind

/-- Appending all-whitespace to a tail holding no DML keyword yields a
tail holding no DML keyword. -/
theorem findBodyDML_append_all_ws
    {t : Str} (htws : ∀ d ∈ t, isPySpace d = true) :
    ∀ (n : Nat) (x : Str) (depth : Nat), x.length ≤ n →
      findBodyDML x depth = none → findBodyDML (x ++ t) depth = none := by
  intro n
  induction n with
  | zero =>
    intro x depth hx _
    have hxe : x = [] := List.length_eq_zero.mp (Nat.le_zero.mp hx)
    subst hxe
    rw [List.nil_append]
    exact findBodyDML_all_ws t htws depth
  | succ n ih =>
    intro x depth hx hnone
    cases x with
    | nil =>
      rw [List.nil_append]
      exact findBodyDML_all_ws t htws depth
    | cons c x' =>
      rw [List.length_cons] at hx
      rw [findBodyDML_cons] at hnone
      rw [List.cons_append, findBodyDML_cons]
      by_cases hpo : (c == '(') = true
      · rw [if_pos hpo] at hnone ⊢
        exact ih x' (depth + 1) (by omega) hnone
      · rw [if_neg hpo] at hnone ⊢
        by_cases hpc : (c == ')') = true
        · rw [if_pos hpc] at hnone ⊢
          exact ih x' (depth - 1) (by omega) hnone
        · rw [if_neg hpc] at hnone ⊢
          have htt : t.takeWhile isWordChar = [] :=
            takeWhile_eq_nil_of_all (fun d hd => not_word_of_pySpace (htws d hd))
          cases x' with
          | nil =>
            have hx1 : ((([] : Str)).head? == some '-') = false := rfl
            have hx2 : ((([] : Str)).head? == some '*') = false := rfl
            rw [if_neg (by simp [hx1]), if_neg (by simp [hx2])] at hnone
            rw [List.nil_append]
            have hbl1 : (t.head? == some '-') = false :=
              beq_head_false (fun d hd =>
                (pySpace_char_facts (htws d (mem_of_head? hd))).2.1)
            have hbl2 : (t.head? == some '*') = false :=
              beq_head_false (fun d hd =>
                (pySpace_char_facts (htws d (mem_of_head? hd))).2.2.1)
            rw [if_neg (by rw [hbl1]; simp), if_neg (by rw [hbl2]; simp)]
            by_cases hwc : isWordChar c = true
            · rw [if_pos hwc] at hnone
              rw [if_pos hwc]
              have hta : (c :: t).takeWhile isWordChar
                  = (c :: ([] : Str)).takeWhile isWordChar := by
                show ((c :: ([] : Str)) ++ t).takeWhile isWordChar = _
                rw [takeWhile_append_of_empty htt]
              rw [hta]
              by_cases hdml : (depth == 0 && DML_KEYWORDS.contains
                  (upperStr ((c :: ([] : Str)).takeWhile isWordChar))) = true
              · rw [if_pos hdml] at hnone
                exact Option.noConfusion hnone
              · rw [if_neg hdml]
                exact findBodyDML_all_ws _
                  (fun d hd => htws d (dropWhile_subset isWordChar t d hd)) depth
            · rw [if_neg hwc]
              exact findBodyDML_all_ws t htws depth
          | cons e x'' =>
            rw [List.length_cons] at hx
            have hhead : ((e :: x'') ++ t).head? = (e :: x'').head? := by
              rw [List.cons_append, List.head?_cons, List.head?_cons]
            have hdrop : ((e :: x'') ++ t).drop 1 = x'' ++ t := by
              rw [List.cons_append]
              rfl
            have hdrop2 : (e :: x'').drop 1 = x'' := rfl
            rw [hhead, hdrop]
            rw [hdrop2] at hnone
            by_cases hline : (c == '-' && (e :: x'').head? == some '-') = true
            · rw [if_pos hline] at hnone
              rw [if_pos hline]
              rcases dropToNewline_append_cases x'' t with hl | ⟨hnil, hsub⟩
              · rw [hl]
                exact ih (dropToNewline x'') depth
                  (by have := dropToNewline_length_le x''; omega) hnone
              · exact findBodyDML_all_ws _ (fun d hd => htws d (hsub d hd)) depth
            · rw [if_neg hline] at hnone
              rw [if_neg hline]
              by_cases hblock : (c == '/' && (e :: x'').head? == some '*') = true
              · rw [if_pos hblock] at hnone
                rw [if_pos hblock]
                rcases dropBlock_append_cases x'' t with hl | ⟨hnil, hsub⟩
                · rw [hl]
                  exact ih (dropBlock x'') depth
                    (by have := dropBlock_length_le x''; omega) hnone
                · exact findBodyDML_all_ws _ (fun d hd => htws d (hsub d hd)) depth
              · rw [if_neg hblock] at hnone
                rw [if_neg hblock]
                by_cases hwc : isWordChar c = true
                · rw [if_pos hwc] at hnone
                  rw [if_pos hwc]
                  have hta : (c :: ((e :: x'') ++ t)).takeWhile isWordChar
                      = (c :: (e :: x'')).takeWhile isWordChar := by
                    show ((c :: (e :: x'')) ++ t).takeWhile isWordChar = _
                    rw [takeWhile_append_of_empty htt]
                  rw [hta]
                  by_cases hdml : (depth == 0 && DML_KEYWORDS.contains
                      (upperStr ((c :: (e :: x'')).takeWhile isWordChar))) = true
                  · rw [if_pos hdml] at hnone
                    exact Option.noConfusion hnone
                  · rw [if_neg hdml] at hnone
                    rw [if_neg hdml]
                    rw [List.dropWhile_append]
                    cases hdw : ((e :: x'').dropWhile isWordChar).isEmpty with
                    | true =>
                      rw [if_pos rfl]
                      exact findBodyDML_all_ws _
                        (fun d hd => htws d (dropWhile_subset isWordChar t d hd)) depth
                    | false =>
                      rw [if_neg (by simp)]
                      exact ih ((e :: x'').dropWhile isWordChar) depth
                        (by
                          have := dropWhile_length_le isWordChar (e :: x'')
                          rw [List.length_cons] at this
                          omega) hnone
                · rw [if_neg hwc] at hnone
                  rw [if_neg hwc]
                  exact ih (e :: x'') depth (by rw [List.length_cons]; omega) hnone
/-- The naive SELECT test implies the parser guard: a statement headed by
the literal SELECT keyword has no leading whitespace or comment to skip. -/
theorem getTypeSelect_of_parsesAsSelect {t : Str} (h : parsesAsSelect t = true) :
    getTypeSelect t = true := by
  obtain ⟨c, rest, ht, hc⟩ := parsesAsSelect_head h
  subst ht
  have hskip : skipMeaningless (c :: rest) = c :: rest := by
    rw [skipMeaningless_cons,
        if_neg (by rw [word_not_pySpace hc]; simp),
        if_neg (by rw [ne_char_of_word hc (by decide)]; simp),
        if_neg (by rw [ne_char_of_word hc (by decide)]; simp)]
  unfold getTypeSelect firstMeaningfulToken
  rw [hskip]
  unfold parsesAsSelect at h
  rw [if_pos h]

theorem dropWhile_head_false {p : Char → Bool} : ∀ {l : Str} {c : Char} {rest : Str},
    l.dropWhile p = c :: rest → p c = false := by
  intro l
  induction l with
  | nil => intro c rest h; exact List.noConfusion h
  | cons a as ih =>
    intro c rest h
    rw [List.dropWhile_cons] at h
    split at h
    · exact ih h
    · rename_i hp
      rw [Bool.not_eq_true] at hp
      injection h with h1 _
      rw [← h1]
      exact hp

/-- The trimmed candidate never starts with whitespace. -/
theorem trimSql_head_not_space {s : Str} {c : Char} {rest : Str}
    (h : trimSql s = c :: rest) : isPySpace c = false := by
  obtain ⟨b, hsplit, -⟩ := rstripWith_split (fun ch => ch == ';') (pyStrip s)
  have h2 : rstripWith (fun ch => ch == ';') (pyStrip s) = c :: rest := h
  rw [h2, List.cons_append] at hsplit
  have h3 : (rstripWith isPySpace s).dropWhile isPySpace = c :: (rest ++ b) := hsplit
  exact dropWhile_head_false h3

/-- Decomposition of a candidate around its trimmed core: leading
whitespace, the core, the trimmed trailing separators, then the trimmed
trailing whitespace. -/
theorem trimSql_decomp (s : Str) :
    ∃ w1 semis w2, s = w1 ++ (trimSql s ++ (semis ++ w2)) ∧
      (∀ c ∈ w1, isPySpace c = true) ∧
      (∀ c ∈ semis, c = ';') ∧
      (∀ c ∈ w2, isPySpace c = true) := by
  obtain ⟨w2, hs2, hw2⟩ := rstripWith_split isPySpace s
  obtain ⟨semis, hs1, hsm⟩ := rstripWith_split (fun c => c == ';') (pyStrip s)
  refine ⟨(rstripWith isPySpace s).takeWhile isPySpace, semis, w2, ?_, ?_, ?_, hw2⟩
  · have hcore : rstripWith isPySpace s
        = (rstripWith isPySpace s).takeWhile isPySpace ++ (trimSql s ++ semis) := by
      conv_lhs => rw [← List.takeWhile_append_dropWhile (p := isPySpace)
        (l := rstripWith isPySpace s)]
      have hdw : (rstripWith isPySpace s).dropWhile isPySpace = trimSql s ++ semis := hs1
      rw [hdw]
    conv_lhs => rw [hs2, hcore]
    simp [List.append_assoc]
  · intro c hc
    exact List.mem_takeWhile_imp hc
  · intro c hc
    have := hsm c hc
    rwa [beq_iff_eq] at this

/-- The parser guard ignores trailing whitespace: if the extended
statement classifies as SELECT, so does its core. -/
theorem getTypeSelect_strip_ws {t1 sp : Str}
    (hsp : ∀ d ∈ sp, isPySpace d = true)
    (hsel : getTypeSelect (t1 ++ sp) = true) :
    getTypeSelect t1 = true := by
  by_cases hne : skipMeaningless t1 = []
  · exfalso
    have hz : skipMeaningless (t1 ++ sp) = [] :=
      skipMeaningless_append_all_ws hsp t1.length t1 le_rfl hne
    unfold getTypeSelect firstMeaningfulToken at hsel
    rw [hz] at hsel
    rw [if_neg (by decide), if_neg (by decide)] at hsel
    exact absurd hsel (by decide)
  · have hskip : skipMeaningless (t1 ++ sp) = skipMeaningless t1 ++ sp :=
      skipMeaningless_append_of_ne_nil
        (fun d hd => ⟨(pySpace_char_facts (hsp d (mem_of_head? hd))).2.1,
                      (pySpace_char_facts (hsp d (mem_of_head? hd))).2.2.1⟩)
        t1.length t1 le_rfl hne
    have htok : firstMeaningfulToken (t1 ++ sp) = firstMeaningfulToken t1 := by
      unfold firstMeaningfulToken
      rw [hskip]
      exact takeWhile_append_of_empty
        (takeWhile_eq_nil_of_all (fun d hd => not_word_of_pySpace (hsp d hd))) _
    unfold getTypeSelect at hsel ⊢
    rw [htok] at hsel
    by_cases hS : (upperStr (firstMeaningfulToken t1) == str "SELECT") = true
    · rw [if_pos hS]
    · rw [if_neg hS] at hsel ⊢
      by_cases hW : (upperStr (firstMeaningfulToken t1) == str "WITH") = true
      · rw [if_pos hW] at hsel ⊢
        have hat : afterTok (t1 ++ sp) = afterTok t1 ++ sp := by
          unfold afterTok
          rw [hskip, htok]
          exact List.drop_append_of_le_length
            (takeWhile_length_le isWordChar (skipMeaningless t1))
        rw [hat] at hsel
        rw [beq_iff_eq] at hsel ⊢
        cases hfb : findBodyDML (afterTok t1) 0 with
        | some w =>
          have hsome := findBodyDML_append_of_some
            (fun d hd => ⟨not_word_of_pySpace (hsp d (mem_of_head? hd)),
                          (pySpace_char_facts (hsp d (mem_of_head? hd))).2.1,
                          (pySpace_char_facts (hsp d (mem_of_head? hd))).2.2.1⟩)
            (afterTok t1).length (afterTok t1) 0 w le_rfl hfb
          rw [hsome] at hsel
          exact hsel
        | none =>
          have hnone := findBodyDML_append_all_ws hsp
            (afterTok t1).length (afterTok t1) 0 le_rfl hfb
          rw [hnone] at hsel
          exact Option.noConfusion hsel
      · rw [if_neg hW] at hsel
        exact absurd hsel (by decide)

/-- The parser guard survives appending the default cap. -/
theorem getTypeSelect_append_cap {t : Str} (hsel : getTypeSelect t = true) :
    getTypeSelect (t ++ str " LIMIT 10000") = true := by
  have hne : skipMeaningless t ≠ [] := by
    intro hz
    unfold getTypeSelect firstMeaningfulToken at hsel
    rw [hz] at hsel
    rw [if_neg (by decide), if_neg (by decide)] at hsel
    exact absurd hsel (by decide)
  have hcap : ∀ d, (str " LIMIT 10000").head? = some d →
      isWordChar d = false ∧ (d == '-') = false ∧ (d == '*') = false := by
    intro d hd
    have hd' : some ' ' = some d := hd
    rw [Option.some.injEq] at hd'
    rw [← hd']
    exact ⟨by decide, by decide, by decide⟩
  have hskip : skipMeaningless (t ++ str " LIMIT 10000")
      = skipMeaningless t ++ str " LIMIT 10000" :=
    skipMeaningless_append_of_ne_nil
      (fun d hd => ⟨(hcap d hd).2.1, (hcap d hd).2.2⟩)
      t.length t le_rfl hne
  have htok : firstMeaningfulToken (t ++ str " LIMIT 10000")
      = firstMeaningfulToken t := by
    unfold firstMeaningfulToken
    rw [hskip]
    exact takeWhile_append_of_empty (by decide) _
  unfold getTypeSelect at hsel ⊢
  rw [htok]
  by_cases hS : (upperStr (firstMeaningfulToken t) == str "SELECT") = true
  · rw [if_pos hS]
  · rw [if_neg hS] at hsel ⊢
    by_cases hW : (upperStr (firstMeaningfulToken t) == str "WITH") = true
    · rw [if_pos hW] at hsel ⊢
      have hat : afterTok (t ++ str " LIMIT 10000") = afterTok t ++ str " LIMIT 10000" := by
        unfold afterTok
        rw [hskip, htok]
        exact List.drop_append_of_le_length
          (takeWhile_length_le isWordChar (skipMeaningless t))
      rw [hat]
      rw [beq_iff_eq] at hsel ⊢
      exact findBodyDML_append_of_some hcap
        (afterTok t).length (afterTok t) 0 (str "SELECT") le_rfl hsel
    · rw [if_neg hW] at hsel
      exact absurd hsel (by decide)

/-- Re-validating an accepted statement that already contained a limit
clause: validation succeeds again, stripping only the whitespace exposed
by the separator trim. -/
theorem revalidate_keep {t : Str}
    (hsemi : t.contains ';' = false)
    (hsel : getTypeSelect t = true)
    (hne : t.isEmpty = false)
    (hhead : ∀ c rest, t = c :: rest → isPySpace c = false)
    (hblocked : ∀ kw ∈ BLOCKED_SQL_KEYWORDS, containsWholeWord kw (upperStr t) = false)
    (hlim : containsWholeWord (str "LIMIT") (upperStr t) = true) :
    validate_sql t = Res.ok (pyStrip t) := by
  have htne : t ≠ [] := by
    intro hnil
    rw [hnil] at hne
    exact absurd hne (by decide)
  obtain ⟨c, rest, ht⟩ := List.exists_cons_of_ne_nil htne
  subst ht
  have hc : isPySpace c = false := hhead c rest rfl
  obtain ⟨hstrip, y, hr⟩ := pyStrip_of_head_not_space hc
  obtain ⟨b, hsplit, hbsp⟩ := rstripWith_split isPySpace (c :: rest)
  have hmem : ';' ∉ c :: rest := not_mem_of_contains_false hsemi
  have hmem1 : ';' ∉ rstripWith isPySpace (c :: rest) := by
    intro hm
    apply hmem
    rw [hsplit]
    exact List.mem_append_left _ hm
  have htrim : trimSql (c :: rest) = rstripWith isPySpace (c :: rest) := by
    unfold trimSql
    rw [hstrip]
    exact rstripSemi_eq_self_of_not_mem hmem1
  have hsel1 : getTypeSelect (rstripWith isPySpace (c :: rest)) = true := by
    apply getTypeSelect_strip_ws hbsp
    rw [← hsplit]
    exact hsel
  have hupb : ∀ d ∈ upperStr b, isWordChar d = false := by
    intro d hd
    obtain ⟨e, he, hde⟩ := List.mem_map.mp hd
    have hsp := hbsp e he
    rw [← hde, toUpper_of_pySpace hsp]
    exact not_word_of_pySpace hsp
  have hupper : upperStr (c :: rest)
      = upperStr (rstripWith isPySpace (c :: rest)) ++ upperStr b := by
    conv_lhs => rw [hsplit]
    exact List.map_append _ _ _
  have hword : ∀ w : Str, w ≠ [] → (∀ d ∈ w, isWordChar d = true) →
      containsWholeWord w (upperStr (rstripWith isPySpace (c :: rest)))
        = containsWholeWord w (upperStr (c :: rest)) := by
    intro w hwne hwall
    rw [hupper]
    unfold containsWholeWord
    rw [containsWordFrom_append_eq hwne hwall (boundaryOk_of_all_nonword hupb)
        (containsWordFrom_all_nonword hwne hwall _ none hupb)]
  have hblocked1 : ∀ kw ∈ BLOCKED_SQL_KEYWORDS,
      containsWholeWord kw (upperStr (rstripWith isPySpace (c :: rest))) = false := by
    intro kw hkw
    obtain ⟨hne, hall⟩ := blocked_keywords_wf kw hkw
    rw [hword kw hne hall]
    exact hblocked kw hkw
  have hlim1 : containsWholeWord (str "LIMIT")
      (upperStr (rstripWith isPySpace (c :: rest))) = true := by
    rw [hword _ limit_word_wf.1 limit_word_wf.2]
    exact hlim
  have h1 : (trimSql (c :: rest)).contains ';' = false := by
    rw [htrim]; exact contains_false_of_not_mem hmem1
  have h2 : (trimSql (c :: rest)).isEmpty = false := by rw [htrim, hr]; rfl
  have h3 : getTypeSelect (trimSql (c :: rest)) = true := by
    rw [htrim]; exact hsel1
  have hfind : BLOCKED_SQL_KEYWORDS.find?
      (fun kw => containsWholeWord kw
        (upperStr (rstripWith isPySpace (c :: rest)))) = none := by
    apply List.find?_eq_none.mpr
    intro kw hkw
    rw [hblocked1 kw hkw]
    simp
  rw [validate_sql_eval h1 h2 h3]
  simp only [htrim, hlim1, Bool.not_true, Bool.false_eq_true, if_false, hfind, hstrip]

/-- Re-validating an accepted statement extended with the default cap:
validation succeeds and returns it unchanged. -/
theorem revalidate_append {t : Str}
    (hsemi : t.contains ';' = false)
    (hsel : getTypeSelect t = true)
    (hne : t.isEmpty = false)
    (hhead : ∀ c rest, t = c :: rest → isPySpace c = false)
    (hblocked : ∀ kw ∈ BLOCKED_SQL_KEYWORDS, containsWholeWord kw (upperStr t) = false) :
    validate_sql (t ++ str " LIMIT 10000") = Res.ok (t ++ str " LIMIT 10000") ∧
    pyStrip (t ++ str " LIMIT 10000") = t ++ str " LIMIT 10000" := by
  have htne : t ≠ [] := by
    intro hnil
    rw [hnil] at hne
    exact absurd hne (by decide)
  obtain ⟨c, rest, ht⟩ := List.exists_cons_of_ne_nil htne
  subst ht
  have hc : isPySpace c = false := hhead c rest rfl
  have hmem : ';' ∉ (c :: rest) ++ str " LIMIT 10000" := by
    intro hm
    rcases List.mem_append.mp hm with hm1 | hm2
    · exact not_mem_of_contains_false hsemi hm1
    · exact absurd hm2 (by decide)
  have hrs : rstripWith isPySpace ((c :: rest) ++ str " LIMIT 10000")
      = (c :: rest) ++ str " LIMIT 10000" := by
    have hdec : (c :: rest) ++ str " LIMIT 10000"
        = ((c :: rest) ++ str " LIMIT 1000") ++ ['0'] := by
      rw [List.append_assoc]
      congr 1
    rw [hdec, rstripWith_concat_of_last (by decide)]
  have hps : pyStrip ((c :: rest) ++ str " LIMIT 10000")
      = (c :: rest) ++ str " LIMIT 10000" := by
    unfold pyStrip
    rw [hrs]
    exact dropWhile_eq_self_of_head hc
  have htrim : trimSql ((c :: rest) ++ str " LIMIT 10000")
      = (c :: rest) ++ str " LIMIT 10000" := by
    unfold trimSql
    rw [hps]
    exact rstripSemi_eq_self_of_not_mem hmem
  have hsel1 : getTypeSelect ((c :: rest) ++ str " LIMIT 10000") = true :=
    getTypeSelect_append_cap hsel
  have hupper : upperStr ((c :: rest) ++ str " LIMIT 10000")
      = upperStr (c :: rest) ++ str " LIMIT 10000" := by
    unfold upperStr
    rw [List.map_append]
    congr 1
  have hblocked1 : ∀ kw ∈ BLOCKED_SQL_KEYWORDS,
      containsWholeWord kw (upperStr ((c :: rest) ++ str " LIMIT 10000")) = false := by
    intro kw hkw
    obtain ⟨hne, hall⟩ := blocked_keywords_wf kw hkw
    rw [hupper]
    unfold containsWholeWord
    rw [containsWordFrom_append_eq hne hall (by decide) (blocked_not_in_cap kw hkw)]
    exact hblocked kw hkw
  have hlim1 : containsWholeWord (str "LIMIT")
      (upperStr ((c :: rest) ++ str " LIMIT 10000")) = true := by
    rw [hupper]
    have hsplitcap : upperStr (c :: rest) ++ str " LIMIT 10000"
        = (upperStr (c :: rest) ++ [' ']) ++ str "LIMIT 10000" := by
      conv_rhs => rw [List.append_assoc]
      congr 1
    unfold containsWholeWord
    rw [hsplitcap]
    apply containsWordFrom_append_right
    rw [lastOr_concat]
    decide
  have h1 : (trimSql ((c :: rest) ++ str " LIMIT 10000")).contains ';' = false := by
    rw [htrim]; exact contains_false_of_not_mem hmem
  have h2 : (trimSql ((c :: rest) ++ str " LIMIT 10000")).isEmpty = false := by
    rw [htrim]; rfl
  have h3 : getTypeSelect (trimSql ((c :: rest) ++ str " LIMIT 10000")) = true := by
    rw [htrim]; exact hsel1
  have hfind : BLOCKED_SQL_KEYWORDS.find?
      (fun kw => containsWholeWord kw
        (upperStr ((c :: rest) ++ str " LIMIT 10000"))) = none := by
    apply List.find?_eq_none.mpr
    intro kw hkw
    rw [hblocked1 kw hkw]
    simp
  refine ⟨?_, hps⟩
  rw [validate_sql_eval h1 h2 h3]
  simp only [htrim, hlim1, Bool.not_true, Bool.false_eq_true, if_false, hfind]

/-! ### Claim theorems: the SQL validator -/

/-- Claim C1 counterexample: `"update t set x=1"` is rejected by the
statement-type check with error `"Only SELECT queries are allowed."`,
before the blocklist scan runs; no offending keyword is named, contrary
to the claim. -/
theorem validate_sql_update_not_named_counterexample :
    validate_sql (str "update t set x=1")
      = Res.exn (str "Only SELECT queries are allowed.") ∧
    validate_sql (str "update t set x=1")
      ≠ Res.exn (str "Blocked keyword detected: UPDATE") := by
  refine ⟨by decide, by decide⟩

/-- Claim C1 (amended): for every candidate passing the multi-statement
and statement-type checks whose upper-cased trimmed form contains a
blocklisted keyword as a whole word, `validate_sql` fails naming an
offending blocklisted keyword occurring in the candidate.  The scenario
input `"update t set x=1"` is instead rejected by the earlier
statement-type check, without naming UPDATE. -/
theorem validate_sql_blocked_keyword_named {s kw : Str}
    (hsemi : (trimSql s).contains ';' = false)
    (hsel : parsesAsSelect (trimSql s) = true)
    (hkw : kw ∈ BLOCKED_SQL_KEYWORDS)
    (hocc : containsWholeWord kw (upperStr (trimSql s)) = true) :
    ∃ kw2 ∈ BLOCKED_SQL_KEYWORDS,
      containsWholeWord kw2 (upperStr (trimSql s)) = true ∧
      validate_sql s = Res.exn (str "Blocked keyword detected: " ++ kw2) := by
  have h2 : (trimSql s).isEmpty = false := by
    obtain ⟨c, rest, ht, -⟩ := parsesAsSelect_head hsel
    rw [ht]; rfl
  have hfind : (BLOCKED_SQL_KEYWORDS.find?
      (fun k => containsWholeWord k (upperStr (trimSql s)))).isSome = true := by
    rw [List.find?_isSome]
    exact ⟨kw, hkw, hocc⟩
  obtain ⟨kw2, hkw2⟩ := Option.isSome_iff_exists.mp hfind
  refine ⟨kw2, ?_, ?_, ?_⟩
  · exact List.mem_of_find?_eq_some hkw2
  · simpa using List.find?_some hkw2
  · rw [validate_sql_eval hsemi h2 (getTypeSelect_of_parsesAsSelect hsel), hkw2]

theorem validate_sql_blocked_keyword_named_witness :
    ((trimSql (str "select \x27drop\x27 from t")).contains ';' = false ∧
      parsesAsSelect (trimSql (str "select \x27drop\x27 from t")) = true ∧
      str "DROP" ∈ BLOCKED_SQL_KEYWORDS ∧
      containsWholeWord (str "DROP")
        (upperStr (trimSql (str "select \x27drop\x27 from t"))) = true) ∧
    ∃ kw2 ∈ BLOCKED_SQL_KEYWORDS,
      containsWholeWord kw2 (upperStr (trimSql (str "select \x27drop\x27 from t"))) = true ∧
      validate_sql (str "select \x27drop\x27 from t")
        = Res.exn (str "Blocked keyword detected: " ++ kw2) :=
  ⟨⟨by decide, by decide, by decide, by decide⟩,
    @validate_sql_blocked_keyword_named (str "select \x27drop\x27 from t") (str "DROP")
      (by decide) (by decide) (by decide) (by decide)⟩

/-- Claim C2 counterexample: for `"select 1;;"` a separator still remains
after trimming whitespace and exactly one trailing separator (the claimed
trim, here `List.dropLast`), yet `validate_sql` accepts the candidate: the
source strips all trailing separators (`rstrip(";")`), not exactly one. -/
theorem validate_sql_trailing_separators_counterexample :
    ((pyStrip (str "select 1;;")).dropLast).contains ';' = true ∧
    validate_sql (str "select 1;;") = Res.ok (str "select 1 LIMIT 10000") := by
  refine ⟨by decide, by decide⟩

/-- Claim C2 (amended): `validate_sql` first trims whitespace and all
trailing statement separators (`trimSql`), then fails for every candidate
in which a separator still remains anywhere; in particular
`"SELECT * FROM t; DROP TABLE t"` is rejected as multi-statement. -/
theorem validate_sql_multi_statement_rejected {s : Str}
    (h : (trimSql s).contains ';' = true) :
    validate_sql s = Res.exn (str "Multi-statement SQL is not allowed.") := by
  unfold validate_sql
  rw [if_pos h]

theorem validate_sql_multi_statement_rejected_witness :
    (trimSql (str "SELECT * FROM t; DROP TABLE t")).contains ';' = true ∧
    validate_sql (str "SELECT * FROM t; DROP TABLE t")
      = Res.exn (str "Multi-statement SQL is not allowed.") :=
  ⟨by decide, @validate_sql_multi_statement_rejected
    (str "SELECT * FROM t; DROP TABLE t") (by decide)⟩

/-- Claim C4 counterexample: `"select a from t;"` is accepted but the
result is neither the candidate itself nor the candidate with one cap
appended — the trailing separator was trimmed first. -/
theorem validate_sql_limit_cap_counterexample :
    validate_sql (str "select a from t;")
      = Res.ok (str "select a from t LIMIT 10000") ∧
    str "select a from t LIMIT 10000" ≠ str "select a from t;" ++ str " LIMIT 10000" ∧
    str "select a from t LIMIT 10000" ≠ str "select a from t;" := by
  refine ⟨by decide, by decide, by decide⟩

/-- Claim C4 (amended): for every accepted candidate the result is the
trimmed candidate with exactly one default cap appended when its
upper-case contains no LIMIT whole word, and the trimmed candidate
unchanged when it does; in particular `"select a from t"` becomes
`"select a from t LIMIT 10000"`. -/
theorem validate_sql_limit_cap {s v : Str} (h : validate_sql s = Res.ok v) :
    (containsWholeWord (str "LIMIT") (upperStr (trimSql s)) = false →
      v = trimSql s ++ str " LIMIT 10000") ∧
    (containsWholeWord (str "LIMIT") (upperStr (trimSql s)) = true →
      v = trimSql s) := by
  obtain ⟨-, -, -, -, hcase⟩ := validate_sql_ok_inv h
  rcases hcase with ⟨hf, hv⟩ | ⟨ht, hv⟩
  · exact ⟨fun _ => hv, fun hc => by rw [hc] at hf; simp at hf⟩
  · exact ⟨fun hc => by rw [hc] at ht; simp at ht, fun _ => hv⟩

theorem validate_sql_limit_cap_witness :
    validate_sql (str "select a from t")
      = Res.ok (str "select a from t LIMIT 10000") ∧
    ((containsWholeWord (str "LIMIT") (upperStr (trimSql (str "select a from t"))) = false →
        str "select a from t LIMIT 10000"
          = trimSql (str "select a from t") ++ str " LIMIT 10000") ∧
     (containsWholeWord (str "LIMIT") (upperStr (trimSql (str "select a from t"))) = true →
        str "select a from t LIMIT 10000" = trimSql (str "select a from t"))) :=
  ⟨by decide, @validate_sql_limit_cap (str "select a from t")
    (str "select a from t LIMIT 10000") (by decide)⟩

/-- Claim C5 counterexample: the program accepts ASCII candidates whose
first token is not SELECT: a leading line comment is skipped by the
parser, so `"-- note\nselect 1"` is accepted, and a CTE statement headed
by WITH is classified by its body type, so
`"WITH t AS (SELECT 1) SELECT * FROM t"` is accepted.  Rejection of every
candidate whose first token is not SELECT is therefore false of the
code. -/
theorem validate_sql_comment_cte_counterexample :
    upperStr (firstToken (str "-- note\nselect 1")) ≠ str "SELECT" ∧
    validate_sql (str "-- note\nselect 1")
      = Res.ok (str "-- note\nselect 1 LIMIT 10000") ∧
    upperStr (firstToken (str "WITH t AS (SELECT 1) SELECT * FROM t")) ≠ str "SELECT" ∧
    validate_sql (str "WITH t AS (SELECT 1) SELECT * FROM t")
      = Res.ok (str "WITH t AS (SELECT 1) SELECT * FROM t LIMIT 10000") := by
  refine ⟨by decide, by decide, by decide, by decide⟩

/-- Claim C5 (amended): `validate_sql` rejects every candidate whose
first meaningful token — the first word after leading whitespace and SQL
comments — is neither SELECT nor WITH, case-insensitively.  Candidates
led by comments before a SELECT keyword, and WITH (CTE) statements whose
body is a SELECT, pass the statement-type check instead. -/
theorem validate_sql_rejects_non_select {s : Str}
    (h1 : upperStr (firstMeaningfulToken s) ≠ str "SELECT")
    (h2 : upperStr (firstMeaningfulToken s) ≠ str "WITH") :
    ∃ e, validate_sql s = Res.exn e := by
  by_cases hc1 : (trimSql s).contains ';' = true
  · exact ⟨str "Multi-statement SQL is not allowed.", by
      unfold validate_sql; rw [if_pos hc1]⟩
  · by_cases hc2 : (trimSql s).isEmpty = true
    · exact ⟨str "Could not parse the generated SQL.", by
        unfold validate_sql; rw [if_neg hc1, if_pos hc2]⟩
    · have hgs : getTypeSelect (trimSql s) = false := by
        cases hg : getTypeSelect (trimSql s) with
        | false => rfl
        | true =>
          exfalso
          obtain ⟨w1, semis, w2, hdec, hw1, hsm, hw2⟩ := trimSql_decomp s
          have hjunk : ∀ d, (semis ++ w2).head? = some d →
              (d == '-') = false ∧ (d == '*') = false := by
            intro d hd
            rcases List.mem_append.mp (mem_of_head? hd) with hm | hm
            · have hdsemi := hsm d hm
              subst hdsemi
              exact ⟨by decide, by decide⟩
            · exact ⟨(pySpace_char_facts (hw2 d hm)).2.1,
                     (pySpace_char_facts (hw2 d hm)).2.2.1⟩
          have htokne : firstMeaningfulToken (trimSql s) ≠ [] := by
            intro hnil
            unfold getTypeSelect at hg
            rw [hnil] at hg
            rw [if_neg (by decide), if_neg (by decide)] at hg
            exact absurd hg (by decide)
          have hrne : skipMeaningless (trimSql s) ≠ [] := by
            intro hnil
            apply htokne
            unfold firstMeaningfulToken
            rw [hnil]
            rfl
          have happ : skipMeaningless (trimSql s ++ (semis ++ w2))
              = skipMeaningless (trimSql s) ++ (semis ++ w2) :=
            skipMeaningless_append_of_ne_nil hjunk
              (trimSql s).length (trimSql s) le_rfl hrne
          have hnw : (semis ++ w2).takeWhile isWordChar = [] := by
            apply takeWhile_eq_nil_of_all
            intro d hd
            rcases List.mem_append.mp hd with hm | hm
            · have hdsemi := hsm d hm
              subst hdsemi
              decide
            · exact not_word_of_pySpace (hw2 d hm)
          have htok : firstMeaningfulToken s = firstMeaningfulToken (trimSql s) := by
            unfold firstMeaningfulToken
            have hskips : skipMeaningless s
                = skipMeaningless (trimSql s) ++ (semis ++ w2) := by
              conv_lhs => rw [hdec]
              rw [skipMeaningless_ws_append w1 hw1 _, happ]
            rw [hskips]
            exact takeWhile_append_of_empty hnw _
          unfold getTypeSelect at hg
          rw [← htok] at hg
          by_cases hS : (upperStr (firstMeaningfulToken s) == str "SELECT") = true
          · exact h1 (by rwa [beq_iff_eq] at hS)
          · rw [if_neg hS] at hg
            by_cases hW : (upperStr (firstMeaningfulToken s) == str "WITH") = true
            · exact h2 (by rwa [beq_iff_eq] at hW)
            · rw [if_neg hW] at hg
              exact absurd hg (by decide)
      exact ⟨str "Only SELECT queries are allowed.", by
        unfold validate_sql
        rw [if_neg hc1, if_neg hc2, if_pos (by rw [hgs]; rfl)]⟩

theorem validate_sql_rejects_non_select_witness :
    (upperStr (firstMeaningfulToken (str "update t set x=1")) ≠ str "SELECT" ∧
     upperStr (firstMeaningfulToken (str "update t set x=1")) ≠ str "WITH") ∧
    ∃ e, validate_sql (str "update t set x=1") = Res.exn e :=
  ⟨⟨by decide, by decide⟩,
    @validate_sql_rejects_non_select (str "update t set x=1") (by decide) (by decide)⟩

/-- Claim C9 counterexample: the accepted candidate
`"select 1 limit 5 ;"` sanitizes to `"select 1 limit 5 "` (trailing
space exposed by the separator trim), and re-validating strips that
space, so `validate_sql` is not idempotent. -/
theorem validate_sql_idempotence_counterexample :
    validate_sql (str "select 1 limit 5 ;") = Res.ok (str "select 1 limit 5 ") ∧
    validate_sql (str "select 1 limit 5 ") = Res.ok (str "select 1 limit 5") ∧
    str "select 1 limit 5" ≠ str "select 1 limit 5 " := by
  refine ⟨by decide, by decide, by decide⟩

/-- Claim C9 (amended): re-validating the output of an accepted candidate
always succeeds and returns that output with surrounding whitespace
stripped; validation is therefore idempotent exactly on outputs carrying
no trailing whitespace (in particular whenever the cap was appended). -/
theorem validate_sql_revalidate {s v : Str} (h : validate_sql s = Res.ok v) :
    validate_sql v = Res.ok (pyStrip v) ∧
    (pyStrip v = v → validate_sql v = Res.ok v) := by
  obtain ⟨h1, h2, h3, h4, hcase⟩ := validate_sql_ok_inv h
  have hhead : ∀ c rest, trimSql s = c :: rest → isPySpace c = false :=
    fun c rest hcr => trimSql_head_not_space hcr
  have hmain : validate_sql v = Res.ok (pyStrip v) := by
    rcases hcase with ⟨hf, hv⟩ | ⟨ht, hv⟩
    · subst hv
      obtain ⟨hok, hid⟩ := revalidate_append h1 h3 h2 hhead h4
      rw [hok, hid]
    · subst hv
      exact revalidate_keep h1 h3 h2 hhead h4 ht
  exact ⟨hmain, fun hid => by rw [hmain, hid]⟩

theorem validate_sql_revalidate_witness :
    validate_sql (str "select a from t")
      = Res.ok (str "select a from t LIMIT 10000") ∧
    (validate_sql (str "select a from t LIMIT 10000")
        = Res.ok (pyStrip (str "select a from t LIMIT 10000")) ∧
      (pyStrip (str "select a from t LIMIT 10000") = str "select a from t LIMIT 10000" →
        validate_sql (str "select a from t LIMIT 10000")
          = Res.ok (str "select a from t LIMIT 10000"))) :=
  ⟨by decide, @validate_sql_revalidate (str "select a from t")
    (str "select a from t LIMIT 10000") (by decide)⟩

/-! ### Orchestrator helper lemmas -/

theorem pollGenieLoop_ok_error_none {env : Env} {cid : Str} {maxWait : Nat} :
    ∀ (fuel n wait elapsed : Nat) {r : ChatResponse},
      pollGenieLoop env cid maxWait fuel n wait elapsed = Res.ok r →
      r.error = none := by
  intro fuel
  induction fuel with
  | zero =>
    intro n wait elapsed r h
    unfold pollGenieLoop at h
    simp at h
  | succ fuel ih =>
    intro n wait elapsed r h
    unfold pollGenieLoop at h
    split at h
    · split at h
      · simp at h
      · split at h
        · rw [Res.ok.injEq] at h
          subst h
          rfl
        · split at h
          · simp at h
          · split at h
            · simp at h
            · exact ih _ _ _ h
    · simp at h

theorem tier1Attempt_ok_error_none {env : Env} {q : Str} {cid : Option Str}
    {r : ChatResponse} (h : tier1Attempt env q cid = Res.ok r) :
    r.error = none := by
  cases cid with
  | none =>
    have h2 : startGenie env q = Res.ok r := h
    unfold startGenie pollGenie at h2
    split at h2
    · simp at h2
    · exact pollGenieLoop_ok_error_none _ _ _ _ h2
  | some c =>
    have h2 : continueGenie env c q = Res.ok r := h
    unfold continueGenie pollGenie at h2
    split at h2
    · simp at h2
    · exact pollGenieLoop_ok_error_none _ _ _ _ h2

theorem bedrockTextToSql_ok_error_none {env : Env} {q sc : Str}
    {r : ChatResponse} (h : bedrockTextToSql env q sc = Res.ok r) :
    r.error = none := by
  unfold bedrockTextToSql at h
  dsimp only at h
  split at h
  · simp at h
  · split at h
    · rw [Res.ok.injEq] at h
      subst h
      rfl
    · split at h
      · simp at h
      · split at h
        · simp at h
        · rw [Res.ok.injEq] at h
          subst h
          rfl

theorem bedrockTextToSql_depends {env env2 : Env}
    (ha : env2.agentReply = env.agentReply)
    (hs : env2.sqlQuery = env.sqlQuery)
    (hi : env2.insightReply = env.insightReply) (q sc : Str) :
    bedrockTextToSql env2 q sc = bedrockTextToSql env q sc := by
  unfold bedrockTextToSql
  rw [ha, hs, hi]

theorem bedrockStage_depends {env env2 : Env}
    (ha : env2.agentReply = env.agentReply)
    (hs : env2.sqlQuery = env.sqlQuery)
    (hi : env2.insightReply = env.insightReply) (q sc : Str) :
    bedrockStage env2 q sc = bedrockStage env q sc := by
  unfold bedrockStage
  rw [bedrockTextToSql_depends ha hs hi]

/-- With a failed tier-1 attempt, the orchestrator's result is exactly
the tier-2 stage (generation plus apology handler). -/
theorem chat_tier1_exn {env : Env} {q sc e : Str} {cid : Option Str}
    (hm : env.useMock = false)
    (h1 : tier1Attempt env q cid = Res.exn e) :
    chat_with_data env q cid sc = Res.ok (bedrockStage env q sc) := by
  unfold chat_with_data
  rw [hm]
  cases hgs : env.genieSpaceId.isEmpty with
  | true => simp [hgs]
  | false => simp [hgs, h1]

theorem pollGenieLoop_timeout {env : Env} {cid : Str} {maxWait : Nat}
    (hok : ∀ n, ∃ reply, env.pollReply n = Res.ok reply)
    (hnt : ∀ n reply, env.pollReply n = Res.ok reply →
      reply.status ≠ str "COMPLETED" ∧ reply.status ≠ str "FAILED" ∧
      reply.status ≠ str "UNABLE_TO_ANSWER") :
    ∀ (fuel n wait elapsed : Nat),
      pollGenieLoop env cid maxWait fuel n wait elapsed
        = Res.exn (str "Genie timed out.") := by
  intro fuel
  induction fuel with
  | zero => intro n wait elapsed; rfl
  | succ fuel ih =>
    intro n wait elapsed
    unfold pollGenieLoop
    split
    · obtain ⟨reply, hr⟩ := hok n
      obtain ⟨hc, hf, hu⟩ := hnt n reply hr
      simp only [hr]
      rw [if_neg (by simp [hc]), if_neg (by simp [hf]), if_neg (by simp [hu])]
      exact ih (n + 1) (genieBackoff wait) (elapsed + wait)
    · rfl

theorem bedrockStage_of_exn {env : Env} {q sc eb : Str}
    (hb : bedrockTextToSql env q sc = Res.exn eb) :
    (bedrockStage env q sc).error = some eb ∧
    (bedrockStage env q sc).text
      = str "I was unable to answer your question. Please try rephrasing it." := by
  unfold bedrockStage
  rw [hb]
  exact ⟨rfl, rfl⟩

theorem error_field_of_bedrockStage {env : Env} {q sc : Str} {cid : Option Str}
    (hpre : env.genieSpaceId = [] ∨ ∃ e1, tier1Attempt env q cid = Res.exn e1) :
    (∀ e, (bedrockStage env q sc).error = some e ↔
      ((env.genieSpaceId = [] ∨ ∃ e1, tier1Attempt env q cid = Res.exn e1) ∧
        bedrockTextToSql env q sc = Res.exn e)) ∧
    ((bedrockStage env q sc).error ≠ none →
      (bedrockStage env q sc).text
        = str "I was unable to answer your question. Please try rephrasing it.") := by
  cases hb : bedrockTextToSql env q sc with
  | ok rb =>
    have h1 : bedrockStage env q sc = rb := by unfold bedrockStage; rw [hb]
    have hen := bedrockTextToSql_ok_error_none hb
    rw [h1, hen]
    constructor
    · intro e
      constructor
      · intro h; exact absurd h (by simp)
      · rintro ⟨-, hc⟩
        exact Res.noConfusion hc
    · intro h; exact absurd rfl h
  | exn eb =>
    obtain ⟨h1, h2⟩ := bedrockStage_of_exn hb
    constructor
    · intro e
      rw [h1]
      constructor
      · intro h
        rw [Option.some.injEq] at h
        subst h
        exact ⟨hpre, rfl⟩
      · rintro ⟨-, hc⟩
        rw [Res.exn.injEq] at hc
        rw [hc]
    · intro _; exact h2

/-! ### Claim theorems: the orchestrator -/

/-- Claim C3: whenever the tier-1 attempt raises, `chat_with_data`
returns exactly the tier-2 stage (so tier 2 is attempted before
returning), and the response is a function of the tier-2 collaborators
alone — any environment agreeing on them, whose tier-1 attempt also
fails (with any error), produces the same response, so the tier-1 error
is never propagated nor placed in the response. -/
theorem chat_with_data_tier1_error_falls_back {env : Env} {q sc e : Str}
    {cid : Option Str}
    (hm : env.useMock = false)
    (h1 : tier1Attempt env q cid = Res.exn e) :
    chat_with_data env q cid sc = Res.ok (bedrockStage env q sc) ∧
    (∀ env2 : Env, env2.useMock = false →
      env2.agentReply = env.agentReply →
      env2.sqlQuery = env.sqlQuery →
      env2.insightReply = env.insightReply →
      (∃ e2, tier1Attempt env2 q cid = Res.exn e2) →
      chat_with_data env2 q cid sc = chat_with_data env q cid sc) := by
  refine ⟨chat_tier1_exn hm h1, ?_⟩
  intro env2 hm2 ha hs hi hex
  obtain ⟨e2, h2⟩ := hex
  rw [chat_tier1_exn hm2 h2, chat_tier1_exn hm h1,
      bedrockStage_depends ha hs hi]

theorem chat_with_data_tier1_error_falls_back_witness :
    ((sampleEnv (Res.ok (str "select 1"))).useMock = false ∧
      tier1Attempt (sampleEnv (Res.ok (str "select 1"))) (str "q") none
        = Res.exn (str "connection refused")) ∧
    (chat_with_data (sampleEnv (Res.ok (str "select 1"))) (str "q") none (str "")
        = Res.ok (bedrockStage (sampleEnv (Res.ok (str "select 1"))) (str "q") (str "")) ∧
      (∀ env2 : Env, env2.useMock = false →
        env2.agentReply = (sampleEnv (Res.ok (str "select 1"))).agentReply →
        env2.sqlQuery = (sampleEnv (Res.ok (str "select 1"))).sqlQuery →
        env2.insightReply = (sampleEnv (Res.ok (str "select 1"))).insightReply →
        (∃ e2, tier1Attempt env2 (str "q") none = Res.exn e2) →
        chat_with_data env2 (str "q") none (str "")
          = chat_with_data (sampleEnv (Res.ok (str "select 1"))) (str "q") none (str ""))) :=
  ⟨⟨rfl, rfl⟩, chat_with_data_tier1_error_falls_back rfl rfl⟩

/-- Claim C6: under status replies that never reach a terminal value, the
poll loop terminates with `TimeoutError("Genie timed out.")`; the wait
interval follows exponential backoff `min(2^k, 5)` (initial `1`, doubled,
capped at `5`); and a timed-out tier-1 attempt makes the orchestrator
fall to the tier-2 stage. -/
theorem pollGenie_timeout_and_backoff {env : Env} {cid mid : Str} {maxWait : Nat}
    (hok : ∀ n, ∃ reply, env.pollReply n = Res.ok reply)
    (hnt : ∀ n reply, env.pollReply n = Res.ok reply →
      reply.status ≠ str "COMPLETED" ∧ reply.status ≠ str "FAILED" ∧
      reply.status ≠ str "UNABLE_TO_ANSWER") :
    pollGenie env cid mid maxWait = Res.exn (str "Genie timed out.") ∧
    (∀ k, Nat.iterate genieBackoff k 1 = min (2 ^ k) 5) ∧
    (∀ (q sc : Str) (cid2 : Option Str), env.useMock = false →
      tier1Attempt env q cid2 = Res.exn (str "Genie timed out.") →
      chat_with_data env q cid2 sc = Res.ok (bedrockStage env q sc)) := by
  refine ⟨?_, ?_, ?_⟩
  · unfold pollGenie
    exact pollGenieLoop_timeout hok hnt maxWait 0 1 0
  · intro k
    induction k with
    | zero => rfl
    | succ k ihk =>
      rw [Function.iterate_succ_apply', ihk]
      unfold genieBackoff
      rcases le_or_lt (2 ^ k) 5 with hle | hlt
      · rw [min_eq_left hle, pow_succ]
      · have h6 : 6 ≤ 2 ^ k := hlt
        have hps : 2 ^ (k + 1) = 2 ^ k * 2 := pow_succ 2 k
        rw [min_eq_right (le_of_lt hlt)]
        omega
  · intro q sc cid2 hm h1
    exact chat_tier1_exn hm h1

theorem pollGenie_timeout_and_backoff_witness :
    ((∀ n, ∃ reply, (sampleEnv (Res.exn (str "agent down"))).pollReply n = Res.ok reply) ∧
      (∀ n reply, (sampleEnv (Res.exn (str "agent down"))).pollReply n = Res.ok reply →
        reply.status ≠ str "COMPLETED" ∧ reply.status ≠ str "FAILED" ∧
        reply.status ≠ str "UNABLE_TO_ANSWER")) ∧
    (pollGenie (sampleEnv (Res.exn (str "agent down"))) (str "c") (str "m") 60
        = Res.exn (str "Genie timed out.") ∧
      (∀ k, Nat.iterate genieBackoff k 1 = min (2 ^ k) 5) ∧
      (∀ (q sc : Str) (cid2 : Option Str),
        (sampleEnv (Res.exn (str "agent down"))).useMock = false →
        tier1Attempt (sampleEnv (Res.exn (str "agent down"))) q cid2
          = Res.exn (str "Genie timed out.") →
        chat_with_data (sampleEnv (Res.exn (str "agent down"))) q cid2 sc
          = Res.ok (bedrockStage (sampleEnv (Res.exn (str "agent down"))) q sc))) :=
  ⟨⟨fun _ => ⟨{ status := str "PENDING" }, rfl⟩,
    fun _ reply h => by
      injection h with h2
      subst h2
      exact ⟨by decide, by decide, by decide⟩⟩,
    pollGenie_timeout_and_backoff
      (fun _ => ⟨{ status := str "PENDING" }, rfl⟩)
      (fun _ reply h => by
        injection h with h2
        subst h2
        exact ⟨by decide, by decide, by decide⟩)⟩

/-- Claim C7: when the tier-2 generation step returns the sentinel
`"UNABLE_TO_ANSWER: no matching table"`, `_bedrock_text_to_sql` produces
a response carrying the explanation in its text, with no dataframe and
no SQL (and no error, tagged bedrock). -/
theorem bedrock_sentinel_response {env : Env} {q sc : Str}
    (h : env.agentReply = Res.ok (str "UNABLE_TO_ANSWER: no matching table")) :
    bedrockTextToSql env q sc = Res.ok
      { text := str "I couldn\x27t find data to answer that. no matching table"
        dataframe := none
        sql := none
        conversationId := none
        source := str "bedrock"
        error := none } := by
  unfold bedrockTextToSql
  rw [h]
  rfl

theorem bedrock_sentinel_response_witness :
    (sampleEnv (Res.ok (str "UNABLE_TO_ANSWER: no matching table"))).agentReply
      = Res.ok (str "UNABLE_TO_ANSWER: no matching table") ∧
    bedrockTextToSql (sampleEnv (Res.ok (str "UNABLE_TO_ANSWER: no matching table")))
        (str "q") (str "")
      = Res.ok
        { text := str "I couldn\x27t find data to answer that. no matching table"
          dataframe := none
          sql := none
          conversationId := none
          source := str "bedrock"
          error := none } :=
  ⟨rfl, bedrock_sentinel_response rfl⟩

/-- Claim C8: in non-mock mode, the returned response carries an error
exactly when tier 2 failed after tier 1 was unavailable (unconfigured) or
failed; in that case the error field preserves the tier-2 failure detail
and the text field holds the generic user-safe apology. -/
theorem chat_with_data_error_field {env : Env} {q sc : Str} {cid : Option Str}
    {r : ChatResponse}
    (hm : env.useMock = false)
    (hr : chat_with_data env q cid sc = Res.ok r) :
    (∀ e, r.error = some e ↔
      ((env.genieSpaceId = [] ∨ ∃ e1, tier1Attempt env q cid = Res.exn e1) ∧
        bedrockTextToSql env q sc = Res.exn e)) ∧
    (r.error ≠ none →
      r.text = str "I was unable to answer your question. Please try rephrasing it.") := by
  unfold chat_with_data at hr
  rw [hm] at hr
  simp only [Bool.false_eq_true, if_false] at hr
  cases hgs : env.genieSpaceId.isEmpty with
  | true =>
    have hgnil := List.isEmpty_iff.mp hgs
    rw [hgs] at hr
    simp only [Bool.not_true, Bool.false_eq_true, if_false, Res.ok.injEq] at hr
    subst hr
    exact error_field_of_bedrockStage (Or.inl hgnil)
  | false =>
    rw [hgs] at hr
    simp only [Bool.not_false, if_true] at hr
    cases ht : tier1Attempt env q cid with
    | ok rt =>
      simp only [ht, Res.ok.injEq] at hr
      subst hr
      have hen := tier1Attempt_ok_error_none ht
      have hne : env.genieSpaceId ≠ [] := by
        intro hnil
        rw [hnil] at hgs
        simp at hgs
      constructor
      · intro e
        rw [hen]
        constructor
        · intro h; exact absurd h (by simp)
        · rintro ⟨hor, -⟩
          rcases hor with hnil | ⟨e1, hcon⟩
          · exact absurd hnil hne
          · exact Res.noConfusion hcon
      · intro h
        rw [hen] at h
        exact absurd rfl h
    | exn et =>
      simp only [ht, Res.ok.injEq] at hr
      subst hr
      rw [← ht]
      exact error_field_of_bedrockStage (Or.inr ⟨et, ht⟩)

theorem chat_with_data_error_field_witness :
    ((sampleEnv (Res.exn (str "bedrock down"))).useMock = false ∧
      chat_with_data (sampleEnv (Res.exn (str "bedrock down"))) (str "q") none (str "")
        = Res.ok
          { text := str "I was unable to answer your question. Please try rephrasing it."
            dataframe := none
            sql := none
            conversationId := none
            source := str "error"
            error := some (str "bedrock down") }) ∧
    ((∀ e,
      ({ text := str "I was unable to answer your question. Please try rephrasing it."
         dataframe := none
         sql := none
         conversationId := none
         source := str "error"
         error := some (str "bedrock down") } : ChatResponse).error = some e ↔
        (((sampleEnv (Res.exn (str "bedrock down"))).genieSpaceId = [] ∨
            ∃ e1, tier1Attempt (sampleEnv (Res.exn (str "bedrock down"))) (str "q") none
              = Res.exn e1) ∧
          bedrockTextToSql (sampleEnv (Res.exn (str "bedrock down"))) (str "q") (str "")
            = Res.exn e)) ∧
      (({ text := str "I was unable to answer your question. Please try rephrasing it."
          dataframe := none
          sql := none
          conversationId := none
          source := str "error"
          error := some (str "bedrock down") } : ChatResponse).error ≠ none →
        ({ text := str "I was unable to answer your question. Please try rephrasing it."
           dataframe := none
           sql := none
           conversationId := none
           source := str "error"
           error := some (str "bedrock down") } : ChatResponse).text
          = str "I was unable to answer your question. Please try rephrasing it.")) :=
  ⟨⟨rfl, rfl⟩, chat_with_data_error_field rfl rfl⟩

/-- Claim C10: `chat_with_data` is total — for every environment,
question, conversation identifier and schema context it returns a
`ChatResponse` and never lets an exception escape; every tier-1 failure
leads to the tier-2 stage, and every tier-2 failure is converted into an
error-carrying response. -/
theorem chat_with_data_total (env : Env) (q sc : Str) (cid : Option Str) :
    ∃ r : ChatResponse, chat_with_data env q cid sc = Res.ok r ∧
      (env.useMock = false → ∀ e, tier1Attempt env q cid = Res.exn e →
        r = bedrockStage env q sc) ∧
      (env.useMock = false → ∀ e e1, tier1Attempt env q cid = Res.exn e1 →
        bedrockTextToSql env q sc = Res.exn e → r.error = some e) := by
  cases hm : env.useMock with
  | true =>
    refine ⟨mockResponse q, ?_, ?_, ?_⟩
    · unfold chat_with_data
      rw [hm]
      simp
    · intro hmf
      exact absurd hmf (by simp)
    · intro hmf
      exact absurd hmf (by simp)
  | false =>
    cases hgs : env.genieSpaceId.isEmpty with
    | true =>
      refine ⟨bedrockStage env q sc, ?_, fun _ _ _ => rfl, ?_⟩
      · unfold chat_with_data
        rw [hm, hgs]
        simp
      · intro _ e e1 _ hb
        exact (bedrockStage_of_exn hb).1
    | false =>
      cases ht : tier1Attempt env q cid with
      | ok rt =>
        refine ⟨rt, ?_, ?_, ?_⟩
        · unfold chat_with_data
          rw [hm, hgs]
          simp [ht]
        · intro _ e hcon
          exact Res.noConfusion hcon
        · intro _ e e1 hcon _
          exact Res.noConfusion hcon
      | exn et =>
        refine ⟨bedrockStage env q sc, ?_, fun _ _ _ => rfl, ?_⟩
        · exact chat_tier1_exn hm ht
        · intro _ e e1 _ hb
          exact (bedrockStage_of_exn hb).1
